import Mathlib

/-!
Verification development for the Obsidian → property-graph import pipeline
(`scripts/` directory: `edtf_parser.py`, `wikilink_extractor.py`,
`document_parser.py`, `entity_parser.py`, `event_parser.py`,
`microaction_parser.py`, `master_import.py`, `relation_calculator.py`).

Each definition is a shallow embedding of the homonymous Python function.
Python strings are modelled as Lean `String`; Python `None`-able values as
`Option`; raised exceptions as `Except`.  `hashlib.sha1(...).hexdigest()` is
modelled as an abstract function parameter `h : String → String`, since every
claim below is independent of the concrete digest.
-/

/- ## String helpers mirroring the Python primitives used by the scripts -/

namespace PyStr

/-- Drop leading characters that belong to `set` (one side of Python's
`str.strip(chars)`). -/
def dropWhileSet (set : List Char) : List Char → List Char
  | [] => []
  | c :: cs => if c ∈ set then dropWhileSet set cs else c :: cs

/-- Python `s.strip(chars)`: remove leading and trailing characters in `set`. -/
def stripSet (set : List Char) (s : String) : String :=
  ⟨(dropWhileSet set (dropWhileSet set s.data).reverse).reverse⟩

/-- Python `s.rstrip(chars)`: remove trailing characters in `set`. -/
def rstripSet (set : List Char) (s : String) : String :=
  ⟨(dropWhileSet set s.data.reverse).reverse⟩

/-- The whitespace characters stripped by Python `str.strip()` (ASCII; the
scripts only strip ASCII input). -/
def isSpaceChar (c : Char) : Bool :=
  c == ' ' || c == '\t' || c == '\n' || c == '\r' || c == '\x0b' || c == '\x0c'

/-- Drop leading whitespace. -/
def dropSpace : List Char → List Char
  | [] => []
  | c :: cs => if isSpaceChar c then dropSpace cs else c :: cs

/-- Python `s.strip()`. -/
def pyStrip (s : String) : String :=
  ⟨(dropSpace (dropSpace s.data).reverse).reverse⟩

/-- `pre` is a prefix of `cs`; on success return the rest. -/
def stripPre : List Char → List Char → Option (List Char)
  | [], cs => some cs
  | _ :: _, [] => none
  | p :: ps, c :: cs => if c == p then stripPre ps cs else none

/-- Python `s.startswith(pre)`. -/
def startsWithStr (s pre : String) : Bool := (stripPre pre.data s.data).isSome

/-- Python `s.endswith(suf)`. -/
def endsWithStr (s suf : String) : Bool :=
  (stripPre suf.data.reverse s.data.reverse).isSome

/-- `s[n:]` (drop the first `n` characters). -/
def dropChars (s : String) (n : Nat) : String := ⟨s.data.drop n⟩

/-- `s[:-n]` (drop the last `n` characters). -/
def dropRightChars (s : String) (n : Nat) : String :=
  ⟨s.data.take (s.data.length - n)⟩

/-- Python `c in s` for a single character. -/
def containsChar (s : String) (c : Char) : Bool := s.data.contains c

/-- Python `s.replace(c, '')` for a one-character pattern: remove every
occurrence of `c`. -/
def removeChar (s : String) (c : Char) : String :=
  ⟨s.data.filter (fun x => !(x == c))⟩

/-- Python `s.lower()` (ASCII input). -/
def toLowerStr (s : String) : String := ⟨s.data.map Char.toLower⟩

/-- `s.split(sep)` for a nonempty separator: leftmost, non-overlapping.
Fuel-indexed by the input length (each step consumes at least one
character). -/
def splitOnAux (sep : List Char) : Nat → List Char → List Char → List String
  | _, [], acc => [⟨acc.reverse⟩]
  | 0, cs, acc => [⟨acc.reverse ++ cs⟩]
  | fuel + 1, c :: cs, acc =>
      match stripPre sep (c :: cs) with
      | some rest => String.mk acc.reverse :: splitOnAux sep fuel rest []
      | none => splitOnAux sep fuel cs (c :: acc)

/-- Python `s.split(sep)` (full split, nonempty `sep`). -/
def splitOnStr (s sep : String) : List String :=
  splitOnAux sep.data s.data.length s.data []

/-- Python `sep.join(parts)`. -/
def joinWith (sep : String) : List String → String
  | [] => ""
  | [p] => p
  | p :: ps => p ++ sep ++ joinWith sep ps

/-- Python `sub in s` for a nonempty needle `sub`. -/
def containsSub (s sub : String) : Bool := (splitOnStr s sub).length ≠ 1

/-- Numeric value of a string of decimal digits (Python `int(s)` on digit
strings, the only use sites in the scripts). -/
def digitsToNat (cs : List Char) : Nat :=
  cs.foldl (fun n c => n * 10 + (c.toNat - '0'.toNat)) 0

/-- Python `f"{n:02d}"` for `n < 100`. -/
def pad2 (n : Nat) : String :=
  if n < 10 then "0" ++ toString n else toString n

/-- Gregorian leap-year rule, as used by Python's `calendar` module. -/
def isLeapYear (y : Nat) : Bool := y % 4 == 0 && (y % 100 != 0 || y % 400 == 0)

/-- `calendar.monthrange(y, m)[1]`: the number of days of month `m` of
year `y`.  (Python raises `IllegalMonthError` outside 1–12; every use below
is within 1–12, where this embedding agrees.) -/
def monthLastDay (y m : Nat) : Nat :=
  if m = 2 then (if isLeapYear y then 29 else 28)
  else if m = 4 ∨ m = 6 ∨ m = 9 ∨ m = 11 then 30
  else 31

end PyStr

/- ## `edtf_parser.py`: class `EDTFParser` -/

namespace EDTFParser

/-- `^\d{4}$` -/
def matchYear (s : String) : Bool :=
  match s.data with
  | [a, b, c, d] => a.isDigit && b.isDigit && c.isDigit && d.isDigit
  | _ => false

/-- `^\d{4}-\d{2}$` -/
def matchYearMonth (s : String) : Bool :=
  match s.data with
  | [a, b, c, d, h, e, f] =>
      a.isDigit && b.isDigit && c.isDigit && d.isDigit && h == '-' &&
      e.isDigit && f.isDigit
  | _ => false

/-- `^\d{4}-\d{2}-\d{2}$` -/
def matchFullDate (s : String) : Bool :=
  match s.data with
  | [a, b, c, d, h1, e, f, h2, g, i] =>
      a.isDigit && b.isDigit && c.isDigit && d.isDigit && h1 == '-' &&
      e.isDigit && f.isDigit && h2 == '-' && g.isDigit && i.isDigit
  | _ => false

/-- `EDTFParser._normalize_single_date(date_str, start)`.  The Python
signature has `start: bool = True`; every call site below passes the flag it
receives in Python (the default `True` where Python omits it). -/
def normalize_single_date (date_str : String) (start : Bool) : Option String :=
  if date_str = "" then none
  else
    let ds := PyStr.rstripSet ['~', '?'] date_str
    if matchYear ds then
      some (if start then ds ++ "-01-01" else ds ++ "-12-31")
    else if matchYearMonth ds then
      match PyStr.splitOnStr ds "-" with
      | [y, m] =>
          if start then some (ds ++ "-01")
          else
            let last := PyStr.monthLastDay (PyStr.digitsToNat y.data) (PyStr.digitsToNat m.data)
            some (ds ++ "-" ++ PyStr.pad2 last)
      | _ => none
    else if matchFullDate ds then some ds
    else none

/-- `EDTFParser.parse(edtf_string)` returning
`(date_start, date_end, precision)`.  Note that the interval and open-bound
branches call `_normalize_single_date` without the `start` keyword, i.e. with
the default `start=True`, which is preserved here verbatim. -/
def parse (edtf_string : String) : Option String × Option String × String :=
  if edtf_string = "" || edtf_string = "../.." then (none, none, "unknown")
  else
    let edtf := PyStr.pyStrip edtf_string
    if PyStr.startsWithStr edtf "../" then
      (none, normalize_single_date (PyStr.dropChars edtf 3) true, "before")
    else if PyStr.endsWithStr edtf "/.." then
      (normalize_single_date (PyStr.dropRightChars edtf 3) true, none, "after")
    else if PyStr.containsChar edtf '/' then
      match PyStr.splitOnStr edtf "/" with
      | p0 :: p1 :: _ =>
          (normalize_single_date p0 true, normalize_single_date p1 true, "interval")
      | _ => (none, none, "interval")
    else if PyStr.endsWithStr edtf "~" then
      let base := PyStr.dropRightChars edtf 1
      (normalize_single_date base true, normalize_single_date base false, "circa")
    else if PyStr.endsWithStr edtf "?" then
      let base := PyStr.dropRightChars edtf 1
      (normalize_single_date base true, normalize_single_date base false, "uncertain")
    else
      let ds := normalize_single_date edtf true
      let de := normalize_single_date edtf false
      let precision :=
        if matchFullDate edtf then "day"
        else if matchYearMonth edtf then "month"
        else if matchYear edtf then "year"
        else "unknown"
      (ds, de, precision)

end EDTFParser

/- ## `master_import.py`: module-level `parse_edtf_date` -/

/-- The dictionary returned by `parse_edtf_date` in `master_import.py`. -/
structure EdtfInfo where
  date_start : Option String
  date_end : Option String
  date_precision : String
  date_edtf : String
deriving DecidableEq, Repr

/-- The `.replace('~', '').replace('?', '').strip()` cleaning step of
`parse_edtf_date`'s interval branch. -/
def cleanEdtfMarkers (s : String) : String :=
  PyStr.pyStrip (PyStr.removeChar (PyStr.removeChar s '~') '?')

/-- `parse_edtf_date(edtf_string)` from `master_import.py` (the commit-time
date derivation of the projector). -/
def parse_edtf_date (edtf_string : String) : EdtfInfo :=
  if edtf_string = "" || PyStr.pyStrip edtf_string = "" then
    ⟨none, none, "unknown", edtf_string⟩
  else
    let e := PyStr.pyStrip edtf_string
    if e = ".." then ⟨none, none, "unknown", e⟩
    else if PyStr.containsChar e '/' then
      match PyStr.splitOnStr e "/" with
      | p0 :: rest =>
          let dsr := PyStr.pyStrip p0
          let der := match rest with | p1 :: _ => PyStr.pyStrip p1 | [] => ""
          let ds :=
            if dsr = "" || dsr = ".." then none
            else
              let c := cleanEdtfMarkers dsr
              if c = ".." then none else some c
          let de :=
            if der = "" || der = ".." then none
            else
              let c := cleanEdtfMarkers der
              if c = ".." then none else some c
          let precision :=
            match ds, de with
            | none, some _ => "open_start"
            | some _, none => "open_end"
            | none, none => "unknown"
            | some _, some _ => "interval"
          ⟨ds, de, precision, e⟩
      | [] => ⟨none, none, "unknown", e⟩
    else if PyStr.containsChar e '~' then
      let c := PyStr.pyStrip (PyStr.removeChar e '~')
      ⟨some c, some c, "approximate", e⟩
    else if PyStr.containsChar e '?' then
      let c := PyStr.pyStrip (PyStr.removeChar e '?')
      ⟨some c, some c, "uncertain", e⟩
    else ⟨some e, some e, "exact", e⟩

/-- The `(date_start, date_end, precision)` triple of an `EdtfInfo`, for
comparison with `EDTFParser.parse`. -/
def EdtfInfo.triple (i : EdtfInfo) : Option String × Option String × String :=
  (i.date_start, i.date_end, i.date_precision)

/-- The four date fields stored on an Event/MicroAction node at commit time. -/
structure CommittedDates where
  date_start : Option String
  date_end : Option String
  date_precision : String
  gap_flag : Bool
deriving DecidableEq, Repr

namespace Neo4jClient

/-- The date-derivation step of `Neo4jClient.import_events` (and, identically,
`import_microactions`): re-derive `date_start`/`date_end`/`date_precision`
and `gap_flag` from `props['date_edtf']` at commit time. -/
def deriveEventDates (date_edtf : Option String) : CommittedDates :=
  match date_edtf with
  | some s =>
      if s ≠ "" then
        let info := parse_edtf_date s
        ⟨info.date_start, info.date_end, info.date_precision,
          info.date_start.isNone || info.date_end.isNone⟩
      else ⟨none, none, "unknown", true⟩
  | none => ⟨none, none, "unknown", true⟩

end Neo4jClient

/- ## `wikilink_extractor.py`: class `WikilinkExtractor` -/

namespace WikilinkExtractor

/-- The character class `[0-9a-fA-F-]`. -/
def isHexDashChar (c : Char) : Bool :=
  c.isDigit || ('a' ≤ c && c ≤ 'f') || ('A' ≤ c && c ≤ 'F') || c == '-'

/-- The alternation `(person|org|gpe|place)` of the two patterns. -/
def kindList : List String := ["person", "org", "gpe", "place"]

/-- `ID_PATTERN = ^/id/(person|org|gpe|place)/[0-9a-fA-F-]{36}$`. -/
def idPatternMatch (s : String) : Bool :=
  kindList.any (fun k =>
    match PyStr.stripPre ("/id/" ++ k ++ "/").data s.data with
    | some tl => tl.length == 36 && tl.all isHexDashChar
    | none => false)

/-- Result of `clean_id`: the cleaned id or the raised `ValueError` message,
plus whether a missing leading slash was auto-corrected (the
`log_slash_correction` warning). -/
structure CleanResult where
  result : Except String String
  slash_corrected : Bool
deriving Repr

/-- `WikilinkExtractor.clean_id(raw_link, ...)`. -/
def clean_id (raw_link : String) : CleanResult :=
  let cleaned := PyStr.stripSet ['[', ']'] raw_link
  let cleaned :=
    if PyStr.containsChar cleaned '|' then (PyStr.splitOnStr cleaned "|").headD ""
    else cleaned
  let corrected := !PyStr.startsWithStr cleaned "/"
  let cleaned := if corrected then "/" ++ cleaned else cleaned
  if !idPatternMatch cleaned then
    ⟨.error ("Invalid ID format: " ++ cleaned), corrected⟩
  else ⟨.ok cleaned, corrected⟩

/-- Consume the literal characters `lit` from the head of `cs`. -/
def dropLit : List Char → List Char → Option (List Char)
  | [], cs => some cs
  | _ :: _, [] => none
  | l :: ls, c :: cs => if c == l then dropLit ls cs else none

/-- Consume one of `person/`, `org/`, `gpe/`, `place/`. -/
def matchKind (cs : List Char) : Option (String × List Char) :=
  match dropLit "person/".data cs with
  | some r => some ("person", r)
  | none =>
    match dropLit "org/".data cs with
    | some r => some ("org", r)
    | none =>
      match dropLit "gpe/".data cs with
      | some r => some ("gpe", r)
      | none =>
        match dropLit "place/".data cs with
        | some r => some ("place", r)
        | none => none

/-- Consume exactly `n` characters of the class `[0-9a-fA-F-]`. -/
def takeHexDash : Nat → List Char → Option (List Char × List Char)
  | 0, cs => some ([], cs)
  | _ + 1, [] => none
  | n + 1, c :: cs =>
      if isHexDashChar c then
        match takeHexDash n cs with
        | some (t, r) => some (c :: t, r)
        | none => none
      else none

/-- The `(?:\|[^\]]+)?\]\]` tail after the alias bar: one or more
non-`]` characters followed by `]]`. -/
def aliasTail : List Char → Option (List Char)
  | [] => none
  | ']' :: rest =>
      match rest with
      | ']' :: r => some r
      | _ => none
  | _ :: cs => aliasTail cs

/-- Match `WIKILINK_PATTERN` at the head of `cs`; on success return the
capture group (the id without the optional leading slash) and the remainder
after the match. -/
def matchWikilinkAt (cs : List Char) : Option (String × List Char) :=
  match dropLit "[[".data cs with
  | none => none
  | some cs1 =>
    let cs2 := match cs1 with
      | '/' :: r => r
      | _ => cs1
    match dropLit "id/".data cs2 with
    | none => none
    | some cs3 =>
      match matchKind cs3 with
      | none => none
      | some (kind, cs4) =>
        match takeHexDash 36 cs4 with
        | none => none
        | some (idc, cs5) =>
          let group1 := "id/" ++ kind ++ "/" ++ String.mk idc
          match cs5 with
          | ']' :: ']' :: rest => some (group1, rest)
          | '|' :: c :: cs6 =>
              if c == ']' then none
              else
                match aliasTail cs6 with
                | some rest => some (group1, rest)
                | none => none
          | _ => none

/-- `re.finditer(WIKILINK_PATTERN, text)`: leftmost, non-overlapping matches,
returning the capture groups in order.  Fuel-indexed; with `fuel ≥ length`
the scan is complete since every step consumes at least one character. -/
def scanAux : Nat → List Char → List String
  | 0, _ => []
  | _ + 1, [] => []
  | fuel + 1, c :: cs =>
      match matchWikilinkAt (c :: cs) with
      | some (g, rest) => g :: scanAux fuel rest
      | none => scanAux fuel cs

/-- `WikilinkExtractor.extract_all_wikilinks(text, ...)`: scan for pattern
matches, resolve each through `clean_id`, drop the ones that raise, and
return the resulting set (modelled as a list without duplicates, in first
insertion order). -/
def extract_all_wikilinks (text : String) : List String :=
  (scanAux text.data.length text.data).foldl
    (fun ids raw =>
      match (clean_id raw).result with
      | .ok c => if c ∈ ids then ids else ids ++ [c]
      | .error _ => ids) []

/-- `WikilinkExtractor.categorize_links(all_links, specific_links, entity_id)`
 = `(specific_links, all_links - specific_links - {entity_id})`. -/
def categorize_links (all_links specific_links : Finset String)
    (entity_id : String) : Finset String × Finset String :=
  (specific_links, (all_links \ specific_links) \ {entity_id})

end WikilinkExtractor

/- ## `document_parser.py`: document ids and the front-matter split -/

/-- Python `text.split(sep, 2)` (at most two splits, so at most three parts). -/
def splitMax2 (sep text : String) : List String :=
  match PyStr.splitOnStr text sep with
  | [] => []
  | [p] => [p]
  | p0 :: p1 :: rest =>
      if rest.isEmpty then [p0, p1] else [p0, p1, PyStr.joinWith sep rest]

/-- Parsed YAML front matter, abstracted to a flat mapping; the YAML parser
itself is passed in as a function returning `Except` (a raised `YAMLError`
is the `error` case). -/
abbrev Yaml := List (String × String)

namespace DocumentParser

/-- One value of `DocumentParser._doc_id_index` (a dict entry
`base_id → {"count": n, "original_path": p}`). -/
structure DocIdEntry where
  base_id : String
  count : Nat
  original_path : String
deriving DecidableEq, Repr

/-- The parser state relevant to document ids: the shared collision index
plus the `log_document_id_collision` warnings
`(file_name, original_path, current_path)`. -/
structure DocIdState where
  index : List DocIdEntry
  collisions : List (String × String × String)
deriving DecidableEq, Repr

/-- A fresh `DocumentParser` (`self._doc_id_index = {}`, no warnings). -/
def emptyDocIdState : DocIdState := ⟨[], []⟩

/-- `DocumentParser._build_document_id(file_path, warnings)`, with
`hashlib.sha1(file_name).hexdigest()` abstracted as `h`. -/
def build_document_id (h : String → String) (file_name file_path : String)
    (st : DocIdState) : String × DocIdState :=
  let base_id := "/id/document/" ++ h file_name
  match st.index.find? (fun e => e.base_id == base_id) with
  | some e =>
      let n := e.count + 1
      (base_id ++ "::" ++ toString n,
        ⟨st.index.map (fun e' =>
            if e'.base_id == base_id then { e' with count := e'.count + 1 } else e'),
          st.collisions ++ [(file_name, e.original_path, file_path)]⟩)
  | none =>
      (base_id, ⟨st.index ++ [⟨base_id, 0, file_path⟩], st.collisions⟩)

/-- Running `_build_document_id` over `(file_name, file_path)` pairs, in the
order `parse_all` visits the files, returning the ids in order. -/
def processFiles (h : String → String) :
    List (String × String) → DocIdState → List String × DocIdState
  | [], st => ([], st)
  | (name, path) :: rest, st =>
      let p := build_document_id h name path st
      let q := processFiles h rest p.2
      (p.1 :: q.1, q.2)

/-- Document ids as a function of the ordered list of file names alone
(spec §3: ids are `hash(filename)` with a numbered suffix on collision,
independent of directories and deterministic across re-imports). -/
def specDocumentIds (h : String → String) :
    List String → List (String × Nat) → List String
  | [], _ => []
  | n :: rest, idx =>
      let base := "/id/document/" ++ h n
      match idx.find? (fun e => e.1 == base) with
      | some e =>
          (base ++ "::" ++ toString (e.2 + 1)) ::
            specDocumentIds h rest
              (idx.map (fun p => if p.1 == base then (p.1, p.2 + 1) else p))
      | none => base :: specDocumentIds h rest (idx ++ [(base, 0)])

/-- `DocumentParser._split_frontmatter(text)`.  (`yaml.safe_load(...) or {}`
is modelled by `yamlParse` returning the mapping directly; a raised
`YAMLError` is the `error` case and triggers the fallback.) -/
def split_frontmatter (yamlParse : String → Except String Yaml)
    (text : String) : Yaml × String :=
  if !PyStr.startsWithStr text "---" then ([], text)
  else
    match splitMax2 "---" text with
    | [_, fmText, body] =>
        match yamlParse fmText with
        | .ok fm => (fm, String.mk (body.data.dropWhile (fun c => c == '\n')))
        | .error _ => ([], text)
    | _ => ([], text)

end DocumentParser

namespace EntityParser

/-- `EntityParser._split_frontmatter_raw(text)`. -/
def split_frontmatter_raw (text : String) : String × String :=
  if !PyStr.startsWithStr text "---" then ("", text)
  else
    match splitMax2 "---" text with
    | [_, fmText, body] => (fmText, String.mk (body.data.dropWhile (fun c => c == '\n')))
    | _ => ("", text)

/-- The front-matter loading step of `EntityParser._parse_entity_file`:
`frontmatter = yaml.safe_load(frontmatter_text) if frontmatter_text else {}`.
No `try`/`except` surrounds it, so a `YAMLError` propagates (the `error`
case). -/
def load_frontmatter (yamlParse : String → Except String Yaml)
    (text : String) : Except String Yaml :=
  let fmText := (split_frontmatter_raw text).1
  if fmText ≠ "" then yamlParse fmText else .ok []

end EntityParser

/-- The per-note `try`/`except` boundary of the `parse_all` loops: a raised
exception is logged as a parse error and the note is skipped (yields no
record). -/
def parse_note_boundary {α : Type} (run : String → Except String α)
    (text : String) : Option α × List String :=
  match run text with
  | .ok a => (some a, [])
  | .error e => (none, [e])

namespace EventParser

/-- `EventParser._build_document_id_from_path(file_path)`: the bare hash of
the file name, with no access to the shared collision index. -/
def build_document_id_from_path (h : String → String) (file_name : String) : String :=
  "/id/document/" ++ h file_name

end EventParser

namespace MicroActionParser

/-- `MicroActionParser._build_document_id_from_path(file_path)`: identical to
the event parser's, again without the collision index. -/
def build_document_id_from_path (h : String → String) (file_name : String) : String :=
  "/id/document/" ++ h file_name

end MicroActionParser

/- ## `master_import.py`: class `Neo4jClient` (the graph projector) -/

/-- A node property map (`SET n += $properties`); values may be Python
`None`. -/
abbrev Props := List (String × Option String)

/-- `props.get(key)`: `none` both when the key is absent and when it holds
`None`. -/
def propGet (props : Props) (k : String) : Option String :=
  match props.find? (fun p => p.1 == k) with
  | some (_, some v) => some v
  | _ => none

/-- `props.get(key)` under Python truthiness (`if props.get(key):`): the
empty string also counts as absent. -/
def propTruthy (props : Props) (k : String) : Option String :=
  match propGet props k with
  | some v => if v = "" then none else some v
  | none => none

/-- Set one key of a property map (one step of `SET n += $properties`). -/
def setProp (m : Props) (k : String) (v : Option String) : Props :=
  if m.any (fun p => p.1 == k) then
    m.map (fun p => if p.1 == k then (k, v) else p)
  else m ++ [(k, v)]

/-- `SET n += $properties`: update `old` with every pair of `new`. -/
def updateProps (old new : Props) : Props :=
  new.foldl (fun m kv => setProp m kv.1 kv.2) old

namespace Neo4jClient

/-- The committed graph.  Nodes written with `MERGE (n:Label {key: $v})` are
identified by `(label, key value)`; reified-structure nodes are written with
`CREATE`, so each write allocates a fresh reference `nextRef`.
`ownEdges` are the parent-to-structure ownership edges, `structRelEdges` the
pass-2 edges from structure nodes, and `relEdges` all other merged edges
`(source key, type, target key)`. -/
structure GraphState where
  nodes : List (String × String × Props)
  structNodes : List (Nat × String × Option String × Props)
  ownEdges : List (String × String × Nat)
  structRelEdges : List (Nat × String × String)
  relEdges : List (String × String × String)
  nextRef : Nat
deriving DecidableEq, Repr

/-- The state after `clear_database` ran on a fresh backend. -/
def emptyGraph : GraphState := ⟨[], [], [], [], [], 0⟩

/-- `Neo4jClient.clear_database`: `MATCH (n) DETACH DELETE n`. -/
def clear_database (_ : GraphState) : GraphState := emptyGraph

/-- The `(label, merge-key value)` pairs of the merged nodes. -/
def nodeKeys (st : GraphState) : List (String × String) :=
  st.nodes.map (fun n => (n.1, n.2.1))

/-- `MATCH (n:Label {key: $v})` succeeds. -/
def hasNode (st : GraphState) (label key : String) : Bool :=
  st.nodes.any (fun n => n.1 == label && n.2.1 == key)

/-- `MATCH (n {id: $v})` (no label) succeeds. -/
def hasNodeAnyLabel (st : GraphState) (key : String) : Bool :=
  st.nodes.any (fun n => n.2.1 == key)

/-- `MERGE (n:Label {key: $v}) SET n += $props`. -/
def mergeNode (label key : String) (props : Props) (st : GraphState) : GraphState :=
  if hasNode st label key then
    { st with nodes := st.nodes.map (fun n =>
        if n.1 == label && n.2.1 == key then (n.1, n.2.1, updateProps n.2.2 props) else n) }
  else { st with nodes := st.nodes ++ [(label, key, props)] }

/-- `MERGE (src)-[:typ]->(dst)` between two id-keyed nodes (at most one edge
of a type between an ordered pair). -/
def mergeRelEdge (src typ dst : String) (st : GraphState) : GraphState :=
  if (src, typ, dst) ∈ st.relEdges then st
  else { st with relEdges := st.relEdges ++ [(src, typ, dst)] }

/-- `MERGE (o)-[:typ]->(dst)` from a structure node. -/
def mergeStructRelEdge (src : Nat) (typ dst : String) (st : GraphState) : GraphState :=
  if (src, typ, dst) ∈ st.structRelEdges then st
  else { st with structRelEdges := st.structRelEdges ++ [(src, typ, dst)] }

/-- One item of a reified structure (`{'rid': ..., 'properties': {...}}`). -/
structure StructureItem where
  rid : Option String
  properties : Props
deriving DecidableEq, Repr

/-- A canonical entity record handed to `import_entities`. -/
structure EntityRec where
  label : String
  id : String
  properties : Props
  structures : List (String × List StructureItem)
  specific_relations : List (String × List String)
  generic_references : List String
deriving DecidableEq, Repr

/-- The `(node label, ownership edge type)` for each structure kind handled
by `_create_reified_structure_nodes_only`; other kinds fall off the
`if`/`elif` chain. -/
def structLabelEdge : String → Option (String × String)
  | "occupations" => some ("Occupation", "HAS_OCCUPATION")
  | "names" => some ("Name", "HAS_NAME")
  | "origins" => some ("Origin", "HAS_ORIGIN")
  | "family_relations" => some ("FamilyRelation", "HAS_FAMILY_REL")
  | "professional_relations" => some ("ProfessionalRelation", "HAS_PROF_REL")
  | "residences" => some ("Residence", "HAS_RESIDENCE")
  | _ => none

/-- `Neo4jClient._create_reified_structure_nodes_only`: `MATCH (p:Person
{id: $entity_id}) CREATE (o:Label) SET o = $properties, o.rid = $rid
MERGE (p)-[:HAS_*]->(o)`.  The node is `CREATE`d — a fresh node on every
call — never merged by `rid`. -/
def create_reified_structure_nodes_only (entity_id struct_type : String)
    (item : StructureItem) (st : GraphState) : GraphState :=
  match structLabelEdge struct_type with
  | none => st
  | some (lab, edge) =>
      if hasNode st "Person" entity_id then
        { st with
            structNodes := st.structNodes ++ [(st.nextRef, lab, item.rid, item.properties)],
            ownEdges := st.ownEdges ++ [(entity_id, edge, st.nextRef)],
            nextRef := st.nextRef + 1 }
      else st

/-- One specific-relation write of `import_entities` pass 1 (`LOCATED_IN`,
`IS_PART_OF`, `WORKED_FOR`; other keys fall through). -/
def applySpecificRel (entity_id rel_type target : String) (st : GraphState) : GraphState :=
  if rel_type = "LOCATED_IN" then
    if hasNodeAnyLabel st entity_id && hasNode st "GPE" target then
      mergeRelEdge entity_id "LOCATED_IN" target st
    else st
  else if rel_type = "IS_PART_OF" then
    if hasNodeAnyLabel st entity_id && hasNode st "Organization" target then
      mergeRelEdge entity_id "IS_PART_OF" target st
    else st
  else if rel_type = "WORKED_FOR" then
    if hasNode st "Person" entity_id && hasNode st "Organization" target then
      mergeRelEdge entity_id "WORKED_FOR" target st
    else st
  else st

/-- The pass-1 body of `import_entities` for one entity: merge the main node,
write specific relations and generic `REFERENCES`, then `CREATE` the reified
structure nodes. -/
def commitEntityPass1 (st : GraphState) (e : EntityRec) : GraphState :=
  let st1 := mergeNode e.label e.id e.properties st
  let st2 := e.specific_relations.foldl
    (fun s rt => rt.2.foldl (fun s2 t => applySpecificRel e.id rt.1 t s2) s) st1
  let st3 := e.generic_references.foldl
    (fun s r =>
      if hasNodeAnyLabel s e.id && hasNodeAnyLabel s r then
        mergeRelEdge e.id "REFERENCES" r s
      else s) st2
  e.structures.foldl
    (fun s grp => grp.2.foldl
      (fun s2 item => create_reified_structure_nodes_only e.id grp.1 item s2) s) st3

/-- The structure-node references matched by `MATCH (o:Label {rid: $rid})`
(a `null` rid matches nothing). -/
def structNodesByRid (st : GraphState) (lab : String) (rid : Option String) : List Nat :=
  match rid with
  | none => []
  | some r => (st.structNodes.filter
      (fun n => n.2.1 == lab && n.2.2.1 == some r)).map (fun n => n.1)

/-- One guarded pass-2 edge write: for every structure node matched by rid,
merge an edge to `target` if the target node exists with label `targetLab`
(empty `targetLab` = unlabelled match). -/
def applyStructRel (lab : String) (rid : Option String) (typ targetLab : String)
    (targetOpt : Option String) (st : GraphState) : GraphState :=
  match targetOpt with
  | none => st
  | some target =>
      if (if targetLab = "" then hasNodeAnyLabel st target
          else hasNode st targetLab target) = true then
        (structNodesByRid st lab rid).foldl
          (fun s ref => mergeStructRelEdge ref typ target s) st
      else st

/-- `Neo4jClient._create_reified_structure_relations` (pass 2) for one item. -/
def create_reified_structure_relations (struct_type : String)
    (item : StructureItem) (st : GraphState) : GraphState :=
  let props := item.properties
  if struct_type = "occupations" then
    let st1 := applyStructRel "Occupation" item.rid "AT_ORGANIZATION" "Organization"
      (propTruthy props "organization") st
    applyStructRel "Occupation" item.rid "AT_PLACE" "GPE" (propTruthy props "place") st1
  else if struct_type = "origins" then
    applyStructRel "Origin" item.rid "AT_PLACE" "GPE" (propTruthy props "place") st
  else if struct_type = "family_relations" then
    applyStructRel "FamilyRelation" item.rid "RELATES_TO" "Person"
      (propTruthy props "target") st
  else if struct_type = "professional_relations" then
    let st1 := applyStructRel "ProfessionalRelation" item.rid "RELATES_TO" ""
      (propTruthy props "target") st
    applyStructRel "ProfessionalRelation" item.rid "IN_CONTEXT_OF" "Organization"
      (propTruthy props "organization_context") st1
  else if struct_type = "residences" then
    applyStructRel "Residence" item.rid "AT_PLACE" "GPE" (propTruthy props "place") st
  else st

/-- The pass-2 body of `import_entities` for one entity. -/
def commitEntityPass2 (st : GraphState) (e : EntityRec) : GraphState :=
  e.structures.foldl
    (fun s grp => grp.2.foldl
      (fun s2 item => create_reified_structure_relations grp.1 item s2) s) st

/-- `label_order` of `import_entities`. -/
def labelOrder (l : String) : Nat :=
  if l == "GPE" then 1 else if l == "Organization" then 2
  else if l == "Person" then 3 else 999

/-- Stable insertion used to model Python's stable `sorted(...)`. -/
def insertByOrder (e : EntityRec) : List EntityRec → List EntityRec
  | [] => [e]
  | x :: xs =>
      if labelOrder x.label < labelOrder e.label then x :: insertByOrder e xs
      else e :: x :: xs

/-- `sorted(entities, key=label_order)` (stable). -/
def sortEntities (b : List EntityRec) : List EntityRec := b.foldr insertByOrder []

/-- `Neo4jClient.import_entities`: sort by label, pass 1 (nodes), pass 2
(structure relations). -/
def import_entities (b : List EntityRec) (st : GraphState) : GraphState :=
  let sorted := sortEntities b
  sorted.foldl commitEntityPass2 (sorted.foldl commitEntityPass1 st)

/-- A canonical document record. -/
structure DocRec where
  id : String
  properties : Props
  references : List String
deriving DecidableEq, Repr

/-- `Neo4jClient.import_documents` for one document: `MERGE
(d:ArchiveDocument {id: $id}) SET d += $properties`, then guarded
`REFERENCES` merges. -/
def commitDoc (st : GraphState) (d : DocRec) : GraphState :=
  let st1 := mergeNode "ArchiveDocument" d.id d.properties st
  d.references.foldl
    (fun s r =>
      if hasNode s "ArchiveDocument" d.id && hasNodeAnyLabel s r then
        mergeRelEdge d.id "REFERENCES" r s
      else s) st1

/-- `Neo4jClient.import_documents`. -/
def import_documents (docs : List DocRec) (st : GraphState) : GraphState :=
  docs.foldl commitDoc st

/-- A provenance assertion record. -/
structure AssertionRec where
  assertion_id : String
  doc_id : String
  properties : Props
deriving DecidableEq, Repr

/-- A canonical event record. -/
structure EventRec where
  event_id : String
  properties : Props
  assertion : AssertionRec
  references : List String
deriving DecidableEq, Repr

/-- A canonical micro-action record. -/
structure MicroRec where
  micro_id : String
  properties : Props
  assertion : AssertionRec
  references : List String
deriving DecidableEq, Repr

/-- The four date keys written into the committed properties by
`import_events` / `import_microactions`. -/
def withCommittedDates (props : Props) : Props :=
  let d := deriveEventDates (propTruthy props "date_edtf")
  updateProps props
    [("date_start", d.date_start), ("date_end", d.date_end),
     ("date_precision", some d.date_precision),
     ("gap_flag", some (toString d.gap_flag))]

/-- The assertion write shared by `import_events` and `import_microactions`:
`MATCH` the claimed node and the owning document, then `MERGE (a:Assertion
{assertion_id: $id}) SET a += $props MERGE (d)-[:SUPPORTS]->(a)
MERGE (a)-[:CLAIMS]->(claimed)`.  If either `MATCH` fails the whole
statement writes nothing. -/
def commitAssertion (claimedLabel claimedKey : String) (a : AssertionRec)
    (st : GraphState) : GraphState :=
  if hasNode st claimedLabel claimedKey && hasNode st "ArchiveDocument" a.doc_id then
    let st1 := mergeNode "Assertion" a.assertion_id a.properties st
    let st2 := mergeRelEdge a.doc_id "SUPPORTS" a.assertion_id st1
    mergeRelEdge a.assertion_id "CLAIMS" claimedKey st2
  else st

/-- The guarded `WAS_VICTIM_OF` write of `import_events`. -/
def victimEdge (ev_key : String) (vopt : Option String) (st : GraphState) : GraphState :=
  match vopt with
  | some v =>
      if hasNode st "Event" ev_key && hasNode st "Person" v then
        mergeRelEdge v "WAS_VICTIM_OF" ev_key st
      else st
  | none => st

/-- The guarded `ACTED_AS_AGENT` write of `import_events` (skipped for the
`UNKNOWN_AUTHORITY` sentinel). -/
def agentEdge (ev_key : String) (aopt : Option String) (st : GraphState) : GraphState :=
  match aopt with
  | some a =>
      if a ≠ "UNKNOWN_AUTHORITY" then
        if hasNode st "Event" ev_key && hasNodeAnyLabel st a then
          mergeRelEdge a "ACTED_AS_AGENT" ev_key st
        else st
      else st
  | none => st

/-- The guarded `OCCURRED_AT` write of `import_events`. -/
def placeEdge (ev_key : String) (popt : Option String) (st : GraphState) : GraphState :=
  match popt with
  | some p =>
      if hasNode st "Event" ev_key && hasNode st "GPE" p then
        mergeRelEdge ev_key "OCCURRED_AT" p st
      else st
  | none => st

/-- The generic `REFERENCES` writes of `import_events` /
`import_microactions`, guarded per target. -/
def refsEdges (lab key : String) (refs : List String) (st : GraphState) : GraphState :=
  refs.foldl
    (fun s r =>
      if hasNode s lab key && hasNodeAnyLabel s r then
        mergeRelEdge key "REFERENCES" r s
      else s) st

/-- `Neo4jClient.import_events` for one event. -/
def commitEvent (st : GraphState) (ev : EventRec) : GraphState :=
  let props := withCommittedDates ev.properties
  let st1 := mergeNode "Event" ev.event_id props st
  let st2 := commitAssertion "Event" ev.event_id ev.assertion st1
  let st3 := victimEdge ev.event_id (propTruthy props "victim_id") st2
  let st4 := agentEdge ev.event_id (propTruthy props "agent_id") st3
  let st5 := placeEdge ev.event_id (propTruthy props "place_id") st4
  refsEdges "Event" ev.event_id ev.references st5

/-- `Neo4jClient.import_events`. -/
def import_events (events : List EventRec) (st : GraphState) : GraphState :=
  events.foldl commitEvent st

/-- `Neo4jClient.resolve_entity`: the id resolves to a `Person` or an
`Organization`. -/
def resolve_entity (st : GraphState) (entity_id : String) : Bool :=
  hasNode st "Person" entity_id || hasNode st "Organization" entity_id

/-- The guarded `PERFORMED` write of `create_microaction_relations`. -/
def performedEdge (micro_key : String) (aopt : Option String) (st : GraphState) : GraphState :=
  match aopt with
  | some a =>
      if resolve_entity st a then mergeRelEdge a "PERFORMED" micro_key st else st
  | none => st

/-- The guarded `RECEIVED` write of `create_microaction_relations`. -/
def receivedEdge (micro_key : String) (ropt : Option String) (st : GraphState) : GraphState :=
  match ropt with
  | some r =>
      if resolve_entity st r then mergeRelEdge micro_key "RECEIVED" r st else st
  | none => st

/-- The guarded `CONCERNS` write of `import_microactions`. -/
def concernsEdge (micro_key : String) (abopt : Option String) (st : GraphState) : GraphState :=
  match abopt with
  | some ab =>
      if hasNode st "MicroAction" micro_key && hasNode st "Person" ab then
        mergeRelEdge micro_key "CONCERNS" ab st
      else st
  | none => st

/-- `Neo4jClient.import_microactions` for one micro-action, including
`create_microaction_relations` (PERFORMED / RECEIVED) and CONCERNS. -/
def commitMicro (st : GraphState) (m : MicroRec) : GraphState :=
  let props := withCommittedDates m.properties
  let st1 := mergeNode "MicroAction" m.micro_id props st
  let st2 := commitAssertion "MicroAction" m.micro_id m.assertion st1
  let st3 := performedEdge m.micro_id (propTruthy props "actor_id") st2
  let st4 := receivedEdge m.micro_id (propTruthy props "recipient_id") st3
  let st5 := concernsEdge m.micro_id (propTruthy props "about_id") st4
  refsEdges "MicroAction" m.micro_id m.references st5

/-- `Neo4jClient.import_microactions`. -/
def import_microactions (micros : List MicroRec) (st : GraphState) : GraphState :=
  micros.foldl commitMicro st

/-- The four canonical batches handed to the projector. -/
structure Batches where
  entities : List EntityRec
  documents : List DocRec
  events : List EventRec
  microactions : List MicroRec
deriving DecidableEq, Repr

/-- Committing all four batches in the phase order of `main`
(entities → documents → events → micro-actions). -/
def commitAll (b : Batches) (st : GraphState) : GraphState :=
  import_microactions b.microactions
    (import_events b.events
      (import_documents b.documents
        (import_entities b.entities st)))

/-- The full pipeline of `main`: `clear_database`, then the four imports. -/
def runPipeline (b : Batches) (st : GraphState) : GraphState :=
  commitAll b (clear_database st)

end Neo4jClient

/- ## `relation_calculator.py`: `RelationCalculator.calculate_replies_to` -/

namespace RelationCalculator

/-- Strict lexicographic order on character lists. -/
def lexLt : List Char → List Char → Bool
  | [], [] => false
  | [], _ :: _ => true
  | _ :: _, [] => false
  | a :: as, b :: bs => if a < b then true else if b < a then false else lexLt as bs

/-- `date(a) < date(b)` of the Cypher query.  The stored dates are ISO
`YYYY-MM-DD` strings, on which the chronological order coincides with the
lexicographic order embedded here. -/
def dateLt (a b : String) : Bool := lexLt a.data b.data

/-- `date(a) < date(b)` on nullable dates: any comparison with `null` is not
satisfied. -/
def dateLtOpt : Option String → Option String → Bool
  | some a, some b => dateLt a b
  | _, _ => false

/-- The properties of a committed `MicroAction` node used by the
`REPLIES_TO` rule. -/
structure MicroAction where
  micro_id : String
  link_type : Option String
  actor_id : Option String
  recipient_id : Option String
  date_start : Option String
deriving DecidableEq, Repr

/-- The committed graph state the rule runs on: the `MicroAction` nodes and
the existing `REPLIES_TO` edges `(reply id, original id)`. -/
structure ReplyGraph where
  micros : List MicroAction
  repliesTo : List (String × String)
deriving DecidableEq, Repr

/-- The `WHERE` clause on `reply`: flagged as reply/acknowledgement
(`toLower(link_type) CONTAINS ...`; a `null` link_type never matches),
non-null actor, recipient and start date. -/
def isReplyFlagged : Option String → Bool
  | some lt => PyStr.containsSub (PyStr.toLowerStr lt) "replies_to" ||
               PyStr.containsSub (PyStr.toLowerStr lt) "acknowledges_receipt"
  | none => false

/-- Whole `reply` filter, including `NOT (reply)-[:REPLIES_TO]->()`. -/
def eligibleReply (g : ReplyGraph) (m : MicroAction) : Bool :=
  isReplyFlagged m.link_type && m.actor_id.isSome && m.recipient_id.isSome &&
  m.date_start.isSome && !(g.repliesTo.any (fun e => e.1 == m.micro_id))

/-- The `original` filter of the subquery: swapped actor/recipient, non-null
start date, strictly earlier than the reply.  (Null-valued equalities are
never satisfied in Cypher; at every use site the reply's actor and recipient
are non-null, where `==` on `Option` agrees.) -/
def isCandidate (m o : MicroAction) : Bool :=
  o.actor_id == m.recipient_id && o.recipient_id == m.actor_id &&
  o.date_start.isSome && dateLtOpt o.date_start m.date_start

/-- `ORDER BY date(original.date_start) DESC LIMIT 1`: keep a candidate with
maximal start date (Cypher leaves ties unspecified; this embedding keeps the
first maximal one, and the theorem below assumes a unique maximum). -/
def findOriginalAux (m : MicroAction) :
    List MicroAction → Option MicroAction → Option MicroAction
  | [], best => best
  | o :: rest, best =>
      if isCandidate m o then
        match best with
        | none => findOriginalAux m rest (some o)
        | some b =>
            if dateLtOpt b.date_start o.date_start then findOriginalAux m rest (some o)
            else findOriginalAux m rest (some b)
      else findOriginalAux m rest best

/-- The `CALL (reply) { ... }` subquery. -/
def findOriginal (g : ReplyGraph) (m : MicroAction) : Option MicroAction :=
  findOriginalAux m g.micros none

/-- The edge contributed by one matched `reply` row, if any. -/
def entryFor (g : ReplyGraph) (m : MicroAction) : Option (String × String) :=
  if eligibleReply g m then
    (findOriginal g m).map (fun o => (m.micro_id, o.micro_id))
  else none

/-- The `(reply id, original id)` pairs produced by the query's match phase:
one per eligible reply whose subquery found an original. -/
def replyNewEdges (g : ReplyGraph) : List (String × String) :=
  g.micros.filterMap (entryFor g)

/-- `RelationCalculator.calculate_replies_to`: for every eligible reply with
a found original, `MERGE (reply)-[:REPLIES_TO]->(original)`. -/
def calculate_replies_to (g : ReplyGraph) : ReplyGraph :=
  { g with repliesTo :=
      (replyNewEdges g).foldl (fun es e => if e ∈ es then es else es ++ [e]) g.repliesTo }

end RelationCalculator

/- ## Example inputs used by counterexamples and witnesses -/

/-- A YAML parser that rejects its input (a raised `YAMLError`). -/
def badYamlParse : String → Except String Yaml := fun _ => .error "YAMLError"

/-- A note whose front-matter block is not valid YAML. -/
def badFmNote : String := "---\nkey: [\n---\nbody"

/-- A second such note, used by the witness. -/
def badFmNote2 : String := "---\na: ]\n---\ncorps"

namespace RelationCalculator

/-- The spec §8 reply example: A(actor=X, recipient=Y, 2020-01-10),
B(actor=Y, recipient=X, 2020-01-20, flagged as reply),
C(actor=X, recipient=Y, 2020-01-01). -/
def exampleMicroA : MicroAction :=
  ⟨"/id/microaction/A", some "initial",
    some "/id/person/xxxxxxxx-1111-2222-3333-444444444444",
    some "/id/org/yyyyyyyy-1111-2222-3333-444444444444", some "2020-01-10"⟩

/-- The reply B of the spec §8 example. -/
def exampleMicroB : MicroAction :=
  ⟨"/id/microaction/B", some "replies_to",
    some "/id/org/yyyyyyyy-1111-2222-3333-444444444444",
    some "/id/person/xxxxxxxx-1111-2222-3333-444444444444", some "2020-01-20"⟩

/-- The earlier candidate C of the spec §8 example. -/
def exampleMicroC : MicroAction :=
  ⟨"/id/microaction/C", some "initial",
    some "/id/person/xxxxxxxx-1111-2222-3333-444444444444",
    some "/id/org/yyyyyyyy-1111-2222-3333-444444444444", some "2020-01-01"⟩

/-- The committed graph of the spec §8 example, with no prior `REPLIES_TO`
edge. -/
def exampleReplyGraph : ReplyGraph :=
  ⟨[exampleMicroA, exampleMicroB, exampleMicroC], []⟩

/-- A graph whose only flagged reply has no candidate original (nobody wrote
in the opposite direction earlier). -/
def exampleReplyGraphNoCand : ReplyGraph :=
  ⟨[exampleMicroB], []⟩

end RelationCalculator

namespace Neo4jClient

/-- A `Person` entity carrying one reified occupation structure. -/
def exampleEntity : EntityRec :=
  { label := "Person"
    id := "/id/person/3b1e2b2a-1111-2222-3333-444444444444"
    properties := [("prefLabel_fr", some "Example")]
    structures := [("occupations", [⟨some "r1", [("position_title", some "consul")]⟩])]
    specific_relations := []
    generic_references := [] }

/-- The single-entity batch used to exhibit the double-commit behaviour. -/
def exampleBatch : List EntityRec := [exampleEntity]

/-- The four batches with only the example entity. -/
def exampleBatches : Batches := ⟨exampleBatch, [], [], []⟩

/-- The `(label, key)` pairs a node write may merge, tracked at the key
level: a key transformer mirroring `mergeNode`. -/
def addKeyK (K : List (String × String)) (k : String × String) :
    List (String × String) :=
  if k ∈ K then K else K ++ [k]

/-- The key effect of one pass-1 entity commit. -/
def entityKeysStep (K : List (String × String)) (e : EntityRec) :
    List (String × String) :=
  addKeyK K (e.label, e.id)

/-- The key effect of one document commit. -/
def docKeysStep (K : List (String × String)) (d : DocRec) :
    List (String × String) :=
  addKeyK K ("ArchiveDocument", d.id)

/-- The key effect of one guarded assertion write against claimed node key
`mk`. -/
def assertKeysStep (mk : String × String) (a : AssertionRec)
    (K : List (String × String)) : List (String × String) :=
  if mk ∈ K ∧ ("ArchiveDocument", a.doc_id) ∈ K then
    addKeyK K ("Assertion", a.assertion_id)
  else K

/-- The key effect of one event commit. -/
def eventKeysStep (K : List (String × String)) (ev : EventRec) :
    List (String × String) :=
  assertKeysStep ("Event", ev.event_id) ev.assertion
    (addKeyK K ("Event", ev.event_id))

/-- The key effect of one micro-action commit. -/
def microKeysStep (K : List (String × String)) (m : MicroRec) :
    List (String × String) :=
  assertKeysStep ("MicroAction", m.micro_id) m.assertion
    (addKeyK K ("MicroAction", m.micro_id))

/-- The key effect of committing all four batches. -/
def commitAllKeys (b : Batches) (K : List (String × String)) :
    List (String × String) :=
  b.microactions.foldl microKeysStep
    (b.events.foldl eventKeysStep
      (b.documents.foldl docKeysStep
        ((sortEntities b.entities).foldl entityKeysStep K)))

end Neo4jClient

/- ## Theorems -/

/-- C8: the date normalizer maps a bare year to (Jan 1, Dec 31, "year") and a
year-month's end bound to the last calendar day of the month, including leap
years: `parse("1942")` = (1942-01-01, 1942-12-31, "year"), `parse("1944-02")`
ends 1944-02-29 and `parse("1943-02")` ends 1943-02-28. -/
theorem edtf_parse_year_and_leap_month_ends :
    EDTFParser.parse "1942" = (some "1942-01-01", some "1942-12-31", "year")
  ∧ EDTFParser.parse "1944-02" = (some "1944-02-01", some "1944-02-29", "month")
  ∧ EDTFParser.parse "1943-02" = (some "1943-02-01", some "1943-02-28", "month") := by
  refine ⟨?_, ?_, ?_⟩ <;> decide

/-- C3: evaluating the code on the closed interval "1941/1942" and the
open-start "../1942".  The claim (and spec §4.2) requires the second bound to
be normalized as an end bound — December 31 for a bare year — but the
interval and open-start branches of `EDTFParser.parse` call
`_normalize_single_date` with the default `start=True`, so the stored end
date is January 1 of the year. -/
theorem edtf_parse_interval_end_is_start_normalized :
    EDTFParser.parse "1941/1942" = (some "1941-01-01", some "1942-01-01", "interval")
  ∧ EDTFParser.parse "../1942" = (none, some "1942-01-01", "before") := by
  exact ⟨by decide, by decide⟩

/-- C2 counterexample: the commit-time derivation `parse_edtf_date` of
`master_import.py` and the extractor's normalizer `EDTFParser.parse` do not
return equal (date_start, date_end, precision) triples for every raw date
expression — on the bare year "1942" the former returns
("1942", "1942", "exact") and the latter ("1942-01-01", "1942-12-31",
"year"). -/
theorem commit_vs_extractor_normalizer_differ :
    (parse_edtf_date "1942").triple ≠ EDTFParser.parse "1942" := by
  decide

/-- C2 amended: for every event or micro-action with a nonempty raw date
expression, the projector re-derives the stored
`date_start`/`date_end`/`date_precision` (and `gap_flag`) at commit time from
the raw expression — but through its own `parse_edtf_date`, not through the
extractor's `EDTFParser.parse`, and the two derivations differ (e.g. on bare
years). -/
theorem import_events_rederives_via_parse_edtf_date (s : String) (h : s ≠ "") :
    Neo4jClient.deriveEventDates (some s) =
      ⟨(parse_edtf_date s).date_start, (parse_edtf_date s).date_end,
        (parse_edtf_date s).date_precision,
        (parse_edtf_date s).date_start.isNone || (parse_edtf_date s).date_end.isNone⟩ := by
  simp [Neo4jClient.deriveEventDates, h]

/-- Witness for the C2 amended theorem at the concrete expression "1942". -/
theorem import_events_rederives_witness :
    ("1942" ≠ "") ∧
      Neo4jClient.deriveEventDates (some "1942") =
        ⟨some "1942", some "1942", "exact", false⟩ := by
  refine ⟨by decide, ?_⟩
  rw [import_events_rederives_via_parse_edtf_date "1942" (by decide)]
  decide

/-- C7: `clean_id` on a bracketed reference with a missing leading slash but
a valid 36-character hex-with-dashes id succeeds with the slash prepended and
a logged auto-correction; `clean_id` on a reference whose id part does not
match the strict grammar reports an error; and `extract_all_wikilinks`
excludes such invalid references from the returned set while keeping valid
ones. -/
theorem clean_id_slash_correction_and_rejection :
    WikilinkExtractor.clean_id "[[id/person/3b1e2b2a-1111-2222-3333-444444444444]]"
      = ⟨.ok "/id/person/3b1e2b2a-1111-2222-3333-444444444444", true⟩
  ∧ WikilinkExtractor.clean_id "[[/id/person/not-a-uuid]]"
      = ⟨.error "Invalid ID format: /id/person/not-a-uuid", false⟩
  ∧ WikilinkExtractor.extract_all_wikilinks
      "a [[/id/person/3b1e2b2a-1111-2222-3333-444444444444]] b [[/id/person/not-a-uuid]] c"
      = ["/id/person/3b1e2b2a-1111-2222-3333-444444444444"] := by
  exact ⟨rfl, rfl, by decide⟩

/-- C4: over any extracted link sets, `categorize_links` returns a generic
set disjoint from the specific targets that also excludes the entity's own
id; in particular a link that is both a specific target and present in the
note body is reported only as a specific target. -/
theorem categorize_links_invariants
    (all_links specific_links : Finset String) (entity_id : String) :
    ((WikilinkExtractor.categorize_links all_links specific_links entity_id).2
        ∩ specific_links = ∅)
  ∧ entity_id ∉ (WikilinkExtractor.categorize_links all_links specific_links entity_id).2
  ∧ (WikilinkExtractor.categorize_links all_links specific_links entity_id).1
      = specific_links
  ∧ ∀ x ∈ specific_links,
      x ∉ (WikilinkExtractor.categorize_links all_links specific_links entity_id).2 := by
  refine ⟨?_, ?_, rfl, ?_⟩
  · ext x
    simp [WikilinkExtractor.categorize_links, Finset.mem_sdiff]
    tauto
  · simp [WikilinkExtractor.categorize_links, Finset.mem_sdiff]
  · intro x hx
    simp [WikilinkExtractor.categorize_links, Finset.mem_sdiff]
    tauto

/-- Witness for C4 at the spec §8 shape: a gpe link present both as the
front-matter `gpe:` field (specific) and in the body (hence in `all_links`)
is not reported as a generic reference. -/
theorem categorize_links_invariants_witness :
    ("/id/gpe/aaaaaaaa-bbbb-cccc-dddd-eeeeeeeeeeee"
        ∈ ({"/id/gpe/aaaaaaaa-bbbb-cccc-dddd-eeeeeeeeeeee"} : Finset String))
  ∧ "/id/gpe/aaaaaaaa-bbbb-cccc-dddd-eeeeeeeeeeee"
      ∉ (WikilinkExtractor.categorize_links
          {"/id/gpe/aaaaaaaa-bbbb-cccc-dddd-eeeeeeeeeeee", "/id/person/self0000-1111-2222-3333-444444444444"}
          {"/id/gpe/aaaaaaaa-bbbb-cccc-dddd-eeeeeeeeeeee"}
          "/id/person/self0000-1111-2222-3333-444444444444").2 := by
  refine ⟨by decide, ?_⟩
  exact (categorize_links_invariants
    {"/id/gpe/aaaaaaaa-bbbb-cccc-dddd-eeeeeeeeeeee", "/id/person/self0000-1111-2222-3333-444444444444"}
    {"/id/gpe/aaaaaaaa-bbbb-cccc-dddd-eeeeeeeeeeee"}
    "/id/person/self0000-1111-2222-3333-444444444444").2.2.2
    "/id/gpe/aaaaaaaa-bbbb-cccc-dddd-eeeeeeeeeeee" (by decide)

/-- C6 counterexample: the claim fails for the entity extractor.  On a note
whose front-matter block is rejected by the YAML parser, the document
extractor falls back to empty front matter with the whole text as body, but
`EntityParser._parse_entity_file` calls `yaml.safe_load` outside any
fallback, so the parse error propagates instead. -/
theorem entity_frontmatter_error_propagates :
    EntityParser.load_frontmatter badYamlParse badFmNote = .error "YAMLError"
  ∧ DocumentParser.split_frontmatter badYamlParse badFmNote = ([], badFmNote) := by
  exact ⟨rfl, rfl⟩

/-- C6 amended: the document extractor's front-matter split falls back to
(empty front matter, whole text as body) whenever the front-matter block
fails to parse, and never raises; the event and micro-action extractors do
not parse front matter at all; the entity extractor, however, propagates a
front-matter parse failure out of the split — it is caught only at the
per-note `try/except` boundary, which logs it and skips the note. -/
theorem frontmatter_fallback_document_not_entity
    (parse : String → Except String Yaml) (text p0 fmText body err : String)
    (hstart : PyStr.startsWithStr text "---" = true)
    (hsplit : splitMax2 "---" text = [p0, fmText, body])
    (hfm : fmText ≠ "")
    (herr : parse fmText = .error err) :
    DocumentParser.split_frontmatter parse text = ([], text)
  ∧ EntityParser.load_frontmatter parse text = .error err
  ∧ parse_note_boundary (EntityParser.load_frontmatter parse) text = (none, [err]) := by
  have hdoc : DocumentParser.split_frontmatter parse text = ([], text) := by
    simp [DocumentParser.split_frontmatter, hstart, hsplit, herr]
  have hent : EntityParser.load_frontmatter parse text = .error err := by
    simp [EntityParser.load_frontmatter, EntityParser.split_frontmatter_raw,
      hstart, hsplit, hfm, herr]
  exact ⟨hdoc, hent, by simp [parse_note_boundary, hent]⟩

/-- Witness for the C6 amended theorem on a second malformed note. -/
theorem frontmatter_fallback_witness :
    DocumentParser.split_frontmatter badYamlParse badFmNote2 = ([], badFmNote2)
  ∧ EntityParser.load_frontmatter badYamlParse badFmNote2 = .error "YAMLError"
  ∧ parse_note_boundary (EntityParser.load_frontmatter badYamlParse) badFmNote2
      = (none, ["YAMLError"]) := by
  exact frontmatter_fallback_document_not_entity badYamlParse badFmNote2
    "" "\na: ]\n" "\ncorps" "YAMLError" (by decide) (by decide) (by decide) rfl

/- ### Helper lemmas: document ids -/

/-- `find?` on the collision index commutes with projecting away the stored
paths. -/
theorem DocumentParser.find?_proj (idx : List DocumentParser.DocIdEntry) (base : String) :
    (idx.map (fun e => (e.base_id, e.count))).find? (fun p => p.1 == base)
      = (idx.find? (fun e => e.base_id == base)).map (fun e => (e.base_id, e.count)) := by
  induction idx with
  | nil => rfl
  | cons e rest ih =>
      by_cases hb : (e.base_id == base) = true
      · simp [List.find?_cons, hb]
      · simp [List.find?_cons, hb, ih]

/-- Bumping a collision count commutes with projecting away the stored
paths. -/
theorem DocumentParser.bump_proj (idx : List DocumentParser.DocIdEntry) (base : String) :
    (idx.map (fun e' =>
        if e'.base_id == base then { e' with count := e'.count + 1 } else e')).map
        (fun e => (e.base_id, e.count))
      = (idx.map (fun e => (e.base_id, e.count))).map
          (fun p => if p.1 == base then (p.1, p.2 + 1) else p) := by
  simp only [List.map_map]
  congr 1
  funext e
  by_cases hb : e.base_id = base <;> simp [Function.comp, hb]

/-- The ids produced by `_build_document_id` over a run are a function of the
ordered file names alone: the stored paths never influence them. -/
theorem DocumentParser.processFiles_ids_spec (h : String → String) :
    ∀ (files : List (String × String)) (idx : List DocumentParser.DocIdEntry)
      (cols : List (String × String × String)),
    (DocumentParser.processFiles h files ⟨idx, cols⟩).1
      = DocumentParser.specDocumentIds h (files.map Prod.fst)
          (idx.map (fun e => (e.base_id, e.count))) := by
  intro files
  induction files with
  | nil => intro idx cols; rfl
  | cons f rest ih =>
      intro idx cols
      obtain ⟨name, path⟩ := f
      simp only [DocumentParser.processFiles, DocumentParser.specDocumentIds, List.map_cons]
      rw [DocumentParser.find?_proj]
      cases hf : idx.find? (fun e => e.base_id == ("/id/document/" ++ h name)) with
      | none =>
          simp [DocumentParser.build_document_id, hf, ih, DocumentParser.specDocumentIds]
      | some e =>
          simp only [DocumentParser.build_document_id, hf, ih, Option.map_some',
            DocumentParser.bump_proj]

/-- Two files sharing a name: the first gets the bare hashed id, the second
the same hash with the suffix `::1` and a logged collision. -/
theorem DocumentParser.processFiles_two_same_name (h : String → String)
    (name p1 p2 : String) :
    DocumentParser.processFiles h [(name, p1), (name, p2)] DocumentParser.emptyDocIdState
      = (["/id/document/" ++ h name, "/id/document/" ++ h name ++ "::1"],
         ⟨[⟨"/id/document/" ++ h name, 1, p1⟩], [(name, p1, p2)]⟩) := by
  simp [DocumentParser.processFiles, DocumentParser.build_document_id,
    DocumentParser.emptyDocIdState, String.append_assoc]
  rfl

/-- C5: document ids are derived solely from the file name as
`hash(filename)`; of two files with the same name the first gets the bare
hashed id and the second the same hash with the numbered suffix `::1` plus a
logged collision, and the ids of a run are a function of the ordered file
names alone (so re-importing the same files in the same order reproduces
identical ids). -/
theorem document_ids_hash_of_filename (h : String → String)
    (name p1 p2 : String) (files : List (String × String)) :
    DocumentParser.processFiles h [(name, p1), (name, p2)] DocumentParser.emptyDocIdState
      = (["/id/document/" ++ h name, "/id/document/" ++ h name ++ "::1"],
         ⟨[⟨"/id/document/" ++ h name, 1, p1⟩], [(name, p1, p2)]⟩)
  ∧ (DocumentParser.processFiles h files DocumentParser.emptyDocIdState).1
      = DocumentParser.specDocumentIds h (files.map Prod.fst) [] := by
  refine ⟨DocumentParser.processFiles_two_same_name h name p1 p2, ?_⟩
  simpa using DocumentParser.processFiles_ids_spec h files [] []

/-- C10 (implicit): the event and micro-action extractors derive the owning
document id as the bare hash of the file name, without the shared collision
counter; for two files sharing a name, that bare id equals the first file's
document id and differs from the suffixed id the document extractor assigned
to the second file, so every event/micro-action assertion in the second file
is attached to the first file's document id. -/
theorem event_micro_doc_id_ignores_collision_suffix (h : String → String)
    (name p1 p2 : String) :
    EventParser.build_document_id_from_path h name = "/id/document/" ++ h name
  ∧ MicroActionParser.build_document_id_from_path h name = "/id/document/" ++ h name
  ∧ (DocumentParser.processFiles h [(name, p1), (name, p2)]
        DocumentParser.emptyDocIdState).1
      = ["/id/document/" ++ h name, "/id/document/" ++ h name ++ "::1"]
  ∧ EventParser.build_document_id_from_path h name
      ≠ "/id/document/" ++ h name ++ "::1"
  ∧ MicroActionParser.build_document_id_from_path h name
      ≠ "/id/document/" ++ h name ++ "::1" := by
  have hne : "/id/document/" ++ h name ≠ "/id/document/" ++ h name ++ "::1" := by
    intro hcontra
    have hl := congrArg String.length hcontra
    simp [String.length_append] at hl
    have h3 : ("::1" : String).length = 3 := rfl
    omega
  refine ⟨rfl, rfl, ?_, hne, hne⟩
  rw [DocumentParser.processFiles_two_same_name]

/- ### Helper lemmas: the REPLIES_TO rule -/

namespace RelationCalculator

theorem lexLt_irrefl : ∀ cs : List Char, lexLt cs cs = false
  | [] => rfl
  | c :: cs => by simp [lexLt, lt_irrefl, lexLt_irrefl cs]

theorem lexLt_asymm : ∀ as bs : List Char, lexLt as bs = true → lexLt bs as = false
  | [], [] => by simp [lexLt]
  | [], _ :: _ => by simp [lexLt]
  | _ :: _, [] => by simp [lexLt]
  | a :: as, b :: bs => by
      simp only [lexLt]
      by_cases hab : a < b
      · have hba : ¬ b < a := lt_asymm hab
        simp [hab, hba]
      · by_cases hba : b < a
        · simp [hab, hba]
        · simp [hab, hba]
          exact lexLt_asymm as bs

theorem dateLtOpt_irrefl (x : Option String) : dateLtOpt x x = false := by
  cases x with
  | none => rfl
  | some a => simp [dateLtOpt, dateLt, lexLt_irrefl]

theorem dateLtOpt_asymm (x y : Option String) (h : dateLtOpt x y = true) :
    dateLtOpt y x = false := by
  cases x with
  | none => cases y <;> rfl
  | some a =>
      cases y with
      | none => rfl
      | some b => exact lexLt_asymm a.data b.data h

/-- If nothing in `l` is a candidate, the subquery fold returns its
accumulator unchanged. -/
theorem findOriginalAux_none (m : MicroAction) :
    ∀ (l : List MicroAction) (best : Option MicroAction),
      (∀ o ∈ l, isCandidate m o = false) → findOriginalAux m l best = best := by
  intro l
  induction l with
  | nil => intro best _; rfl
  | cons o rest ih =>
      intro best h
      have ho : isCandidate m o = false := h o (by simp)
      simp only [findOriginalAux, ho, Bool.false_eq_true, if_false]
      exact ih best (fun o' ho' => h o' (by simp [ho']))

/-- If `cand` is a candidate and every other candidate in `l` is strictly
earlier, the subquery fold returns `cand` — provided the accumulator is
`cand` already, or is empty or strictly earlier with `cand` still to come. -/
theorem findOriginalAux_max (m cand : MicroAction)
    (hcand : isCandidate m cand = true) :
    ∀ (l : List MicroAction) (best : Option MicroAction),
      (∀ o ∈ l, isCandidate m o = true →
        o = cand ∨ dateLtOpt o.date_start cand.date_start = true) →
      (best = some cand ∨ (best = none ∧ cand ∈ l) ∨
        (∃ b, best = some b ∧ dateLtOpt b.date_start cand.date_start = true ∧ cand ∈ l)) →
      findOriginalAux m l best = some cand := by
  intro l
  induction l with
  | nil =>
      intro best _ hinv
      rcases hinv with h | ⟨_, hmem⟩ | ⟨b, _, _, hmem⟩
      · simp [findOriginalAux, h]
      · exact absurd hmem (List.not_mem_nil _)
      · exact absurd hmem (List.not_mem_nil _)
  | cons o rest ih =>
      intro best hall hinv
      have hallr : ∀ o' ∈ rest, isCandidate m o' = true →
          o' = cand ∨ dateLtOpt o'.date_start cand.date_start = true :=
        fun o' ho' => hall o' (by simp [ho'])
      by_cases ho : isCandidate m o = true
      · have hor : o = cand ∨ dateLtOpt o.date_start cand.date_start = true :=
          hall o (by simp) ho
        have hne_of_lt : dateLtOpt o.date_start cand.date_start = true → cand ≠ o := by
          intro hlt he
          rw [he] at hlt
          rw [dateLtOpt_irrefl] at hlt
          exact Bool.false_ne_true hlt
        cases best with
        | none =>
            simp only [findOriginalAux, ho, if_true]
            rcases hor with rfl | hlt
            · exact ih (some o) hallr (Or.inl rfl)
            · have hmem : cand ∈ rest := by
                rcases hinv with h | ⟨_, hm2⟩ | ⟨b, hb, _, _⟩
                · exact absurd h (by simp)
                · rcases List.mem_cons.mp hm2 with he | hr
                  · exact absurd he (hne_of_lt hlt)
                  · exact hr
                · exact absurd hb (by simp)
              exact ih (some o) hallr (Or.inr (Or.inr ⟨o, rfl, hlt, hmem⟩))
        | some b =>
            rcases hinv with hb | ⟨habs, _⟩ | ⟨b', hb', hblt, hmem⟩
            · have hbc : b = cand := by injection hb
              rcases hor with ho2 | hlt
              · have h1 : dateLtOpt b.date_start o.date_start = false := by
                  rw [hbc, ho2, dateLtOpt_irrefl]
                simp only [findOriginalAux, ho, if_true, h1, Bool.false_eq_true, if_false]
                rw [hbc]
                exact ih (some cand) hallr (Or.inl rfl)
              · have h1 : dateLtOpt b.date_start o.date_start = false := by
                  rw [hbc]
                  exact dateLtOpt_asymm _ _ hlt
                simp only [findOriginalAux, ho, if_true, h1, Bool.false_eq_true, if_false]
                rw [hbc]
                exact ih (some cand) hallr (Or.inl rfl)
            · exact absurd habs (by simp)
            · have hbb : b = b' := by injection hb'
              rcases hor with ho2 | hlt
              · have h1 : dateLtOpt b.date_start o.date_start = true := by
                  rw [hbb, ho2]
                  exact hblt
                simp only [findOriginalAux, ho, if_true, h1, if_true]
                rw [ho2]
                exact ih (some cand) hallr (Or.inl rfl)
              · have hmem2 : cand ∈ rest := by
                  rcases List.mem_cons.mp hmem with he | hr
                  · exact absurd he (hne_of_lt hlt)
                  · exact hr
                by_cases hcond : dateLtOpt b.date_start o.date_start = true
                · simp only [findOriginalAux, ho, if_true, hcond, if_true]
                  exact ih (some o) hallr (Or.inr (Or.inr ⟨o, rfl, hlt, hmem2⟩))
                · simp only [findOriginalAux, ho, if_true,
                    Bool.eq_false_iff.mpr hcond, Bool.false_eq_true, if_false]
                  refine ih (some b) hallr (Or.inr (Or.inr ⟨b, rfl, ?_, hmem2⟩))
                  rw [hbb]
                  exact hblt
      · have hnec : cand ≠ o := by
          intro he
          rw [he] at hcand
          exact ho hcand
        simp only [findOriginalAux, Bool.eq_false_iff.mpr ho, Bool.false_eq_true, if_false]
        apply ih _ hallr
        rcases hinv with h | ⟨hb, hm2⟩ | ⟨b, hb, hblt, hmem⟩
        · exact Or.inl h
        · refine Or.inr (Or.inl ⟨hb, ?_⟩)
          rcases List.mem_cons.mp hm2 with he | hr
          · exact absurd he hnec
          · exact hr
        · refine Or.inr (Or.inr ⟨b, hb, hblt, ?_⟩)
          rcases List.mem_cons.mp hmem with he | hr
          · exact absurd he hnec
          · exact hr

end RelationCalculator

namespace RelationCalculator

/-- An edge contributed by a row carries that row's `micro_id` as source. -/
theorem entryFor_fst (g : ReplyGraph) (m' : MicroAction) (e : String × String)
    (h : entryFor g m' = some e) : e.1 = m'.micro_id := by
  unfold entryFor at h
  by_cases helig : eligibleReply g m' = true
  · rw [if_pos helig] at h
    cases hf : findOriginal g m' with
    | none => rw [hf] at h; simp at h
    | some o =>
        rw [hf] at h
        simp only [Option.map_some'] at h
        injection h with he
        rw [← he]
  · rw [if_neg helig] at h
    simp at h

/-- Rows whose `micro_id` differs from `x` contribute no edge with source
`x`. -/
theorem replyNewEdges_filter_nil (g : ReplyGraph) (x : String) :
    ∀ l : List MicroAction, (∀ m' ∈ l, m'.micro_id ≠ x) →
      ((l.filterMap (entryFor g)).filter (fun e => e.1 == x)) = [] := by
  intro l
  induction l with
  | nil => intro _; rfl
  | cons y rest ih =>
      intro h
      have hy : y.micro_id ≠ x := h y (by simp)
      have hr := ih (fun m' hm' => h m' (by simp [hm']))
      cases hE : entryFor g y with
      | none => simp [List.filterMap_cons, hE, hr]
      | some e =>
          have : e.1 = y.micro_id := entryFor_fst g y e hE
          have hne : (e.1 == x) = false := by
            rw [this]
            exact beq_eq_false_iff_ne.mpr hy
          simp [List.filterMap_cons, hE, List.filter_cons, hne, hr]

/-- With distinct `micro_id`s, the edges with source `m.micro_id` among the
produced edges are exactly `m`'s own contribution. -/
theorem replyNewEdges_filter_self (g : ReplyGraph) (m : MicroAction) :
    ∀ l : List MicroAction, (l.map MicroAction.micro_id).Nodup → m ∈ l →
      ((l.filterMap (entryFor g)).filter (fun e => e.1 == m.micro_id))
        = (entryFor g m).toList := by
  intro l
  induction l with
  | nil => intro _ hm; exact absurd hm (List.not_mem_nil _)
  | cons y rest ih =>
      intro hnodup hm
      rw [List.map_cons] at hnodup
      have hnd := List.nodup_cons.mp hnodup
      rcases List.mem_cons.mp hm with he | hr
      · -- m is the head
        subst he
        have hrest_ne : ∀ m' ∈ rest, m'.micro_id ≠ m.micro_id := by
          intro m' hm' hcontra
          exact hnd.1 (hcontra ▸ List.mem_map_of_mem MicroAction.micro_id hm')
        have hnil := replyNewEdges_filter_nil g m.micro_id rest hrest_ne
        cases hE : entryFor g m with
        | none => simp [List.filterMap_cons, hE, hnil]
        | some e =>
            have hfst : e.1 = m.micro_id := entryFor_fst g m e hE
            have hbeq : (e.1 == m.micro_id) = true := by
              rw [hfst]
              exact beq_self_eq_true _
            simp [List.filterMap_cons, hE, List.filter_cons, hbeq, hnil]
      · -- m is in the tail
        have hy_ne : y.micro_id ≠ m.micro_id := by
          intro hcontra
          exact hnd.1 (hcontra ▸ List.mem_map_of_mem MicroAction.micro_id hr)
        have hrec := ih hnd.2 hr
        cases hE : entryFor g y with
        | none => simp [List.filterMap_cons, hE, hrec]
        | some e =>
            have hfst : e.1 = y.micro_id := entryFor_fst g y e hE
            have hne : (e.1 == m.micro_id) = false := by
              rw [hfst]
              exact beq_eq_false_iff_ne.mpr hy_ne
            simp [List.filterMap_cons, hE, List.filter_cons, hne, hrec]

/-- Folding `MERGE` over new edges adds no edge satisfying `p` when none of
the new edges does. -/
theorem foldl_merge_filter_nil (p : String × String → Bool) :
    ∀ (new acc : List (String × String)), new.filter p = [] →
      ((new.foldl (fun es e => if e ∈ es then es else es ++ [e]) acc).filter p)
        = acc.filter p := by
  intro new
  induction new with
  | nil => intro acc _; rfl
  | cons e rest ih =>
      intro acc h
      rw [List.filter_cons] at h
      have hsplit : p e = false ∧ rest.filter p = [] := by
        by_cases hp : p e = true
        · rw [if_pos hp] at h
          exact absurd h (List.cons_ne_nil _ _)
        · rw [if_neg hp] at h
          exact ⟨Bool.eq_false_iff.mpr hp, h⟩
      obtain ⟨hpe, hrest⟩ := hsplit
      by_cases hmem : e ∈ acc
      · simp only [List.foldl_cons, if_pos hmem]
        exact ih acc hrest
      · simp only [List.foldl_cons, if_neg hmem]
        rw [ih (acc ++ [e]) hrest, List.filter_append]
        simp [List.filter_cons, hpe]

/-- Folding `MERGE` over new edges whose `p`-selection is exactly `[e0]`,
into an accumulator with no `p`-edge, leaves exactly `[e0]` selected. -/
theorem foldl_merge_filter_one (p : String × String → Bool) :
    ∀ (new acc : List (String × String)) (e0 : String × String),
      acc.filter p = [] → new.filter p = [e0] →
      ((new.foldl (fun es e => if e ∈ es then es else es ++ [e]) acc).filter p)
        = [e0] := by
  intro new
  induction new with
  | nil =>
      intro acc e0 _ h
      simp at h
  | cons e rest ih =>
      intro acc e0 hacc h
      by_cases hp : p e = true
      · rw [List.filter_cons_of_pos hp] at h
        have he0 : e = e0 := by injection h
        have hrest : rest.filter p = [] := by injection h
        subst he0
        have hmem : e ∉ acc := by
          intro hmem
          have : e ∈ acc.filter p := List.mem_filter.mpr ⟨hmem, hp⟩
          rw [hacc] at this
          exact List.not_mem_nil e this
        simp only [List.foldl_cons, if_neg hmem]
        rw [foldl_merge_filter_nil p rest (acc ++ [e]) hrest, List.filter_append, hacc]
        simp [List.filter_cons, hp]
      · have hpe : p e = false := Bool.eq_false_iff.mpr hp
        rw [List.filter_cons_of_neg (by simp [hpe])] at h
        by_cases hmem : e ∈ acc
        · simp only [List.foldl_cons, if_pos hmem]
          exact ih acc e0 hacc h
        · simp only [List.foldl_cons, if_neg hmem]
          refine ih (acc ++ [e]) e0 ?_ h
          rw [List.filter_append, hacc]
          simp [List.filter_cons, hpe]

end RelationCalculator

/-- C9: for every micro-action flagged as a reply with known actor,
recipient and start date and no pre-existing `REPLIES_TO` edge, the
reply-linking rule creates no edge when no candidate with swapped
actor/recipient and strictly earlier start date exists, and otherwise
creates exactly one edge from the reply to the unique candidate with the
maximum start date strictly below the reply's. -/
theorem replies_to_unique_latest (g : RelationCalculator.ReplyGraph)
    (m : RelationCalculator.MicroAction)
    (hnodup : (g.micros.map RelationCalculator.MicroAction.micro_id).Nodup)
    (hm : m ∈ g.micros)
    (helig : RelationCalculator.eligibleReply g m = true) :
    ((∀ o ∈ g.micros, RelationCalculator.isCandidate m o = false) →
      ((RelationCalculator.calculate_replies_to g).repliesTo.filter
          (fun e => e.1 == m.micro_id)) = [])
  ∧ (∀ cand ∈ g.micros, RelationCalculator.isCandidate m cand = true →
      (∀ o ∈ g.micros, RelationCalculator.isCandidate m o = true →
        o = cand ∨ RelationCalculator.dateLtOpt o.date_start cand.date_start = true) →
      ((RelationCalculator.calculate_replies_to g).repliesTo.filter
          (fun e => e.1 == m.micro_id)) = [(m.micro_id, cand.micro_id)]) := by
  have hany : g.repliesTo.any (fun e => e.1 == m.micro_id) = false := by
    have h := helig
    simp only [RelationCalculator.eligibleReply, Bool.and_eq_true,
      Bool.not_eq_true'] at h
    exact h.2
  have hfil : g.repliesTo.filter (fun e => e.1 == m.micro_id) = [] := by
    rw [List.filter_eq_nil]
    rw [List.any_eq_false] at hany
    exact hany
  constructor
  · intro hnone
    have hfo : RelationCalculator.findOriginal g m = none :=
      RelationCalculator.findOriginalAux_none m g.micros none hnone
    have hE : RelationCalculator.entryFor g m = none := by
      simp [RelationCalculator.entryFor, helig, hfo]
    have hself := RelationCalculator.replyNewEdges_filter_self g m g.micros hnodup hm
    rw [hE] at hself
    simp only [Option.toList] at hself
    simp only [RelationCalculator.calculate_replies_to, RelationCalculator.replyNewEdges]
    rw [RelationCalculator.foldl_merge_filter_nil _ _ _ hself, hfil]
  · intro cand hcand hcandtrue hmax
    have hfo : RelationCalculator.findOriginal g m = some cand :=
      RelationCalculator.findOriginalAux_max m cand hcandtrue g.micros none hmax
        (Or.inr (Or.inl ⟨rfl, hcand⟩))
    have hE : RelationCalculator.entryFor g m = some (m.micro_id, cand.micro_id) := by
      simp [RelationCalculator.entryFor, helig, hfo]
    have hself := RelationCalculator.replyNewEdges_filter_self g m g.micros hnodup hm
    rw [hE] at hself
    simp only [Option.toList] at hself
    simp only [RelationCalculator.calculate_replies_to, RelationCalculator.replyNewEdges]
    exact RelationCalculator.foldl_merge_filter_one _ _ _ _ hfil hself

/-- Witness for C9 on the spec §8 example: the rule links B to A (choosing A
over the earlier C), and creates no edge when no opposite-direction earlier
message exists. -/
theorem replies_to_unique_latest_witness :
    ((RelationCalculator.calculate_replies_to
        RelationCalculator.exampleReplyGraph).repliesTo.filter
        (fun e => e.1 == "/id/microaction/B"))
      = [("/id/microaction/B", "/id/microaction/A")]
  ∧ ((RelationCalculator.calculate_replies_to
        RelationCalculator.exampleReplyGraphNoCand).repliesTo.filter
        (fun e => e.1 == "/id/microaction/B")) = [] := by
  constructor
  · exact (replies_to_unique_latest RelationCalculator.exampleReplyGraph
      RelationCalculator.exampleMicroB (by decide) (by decide) (by decide)).2
      RelationCalculator.exampleMicroA (by decide) (by decide) (by decide)
  · exact (replies_to_unique_latest RelationCalculator.exampleReplyGraphNoCand
      RelationCalculator.exampleMicroB (by decide) (by decide) (by decide)).1
      (by decide)

/- ### Helper lemmas: the graph projector's node keys -/

namespace Neo4jClient

/-- A node count equals the key-list length. -/
theorem nodes_length_eq_keys (st : GraphState) :
    st.nodes.length = (nodeKeys st).length := by
  simp [nodeKeys]

/-- `MATCH (n:Label {key})` succeeds exactly when the key is present. -/
theorem hasNode_iff (st : GraphState) (l k : String) :
    hasNode st l k = true ↔ (l, k) ∈ nodeKeys st := by
  simp [hasNode, nodeKeys, List.any_eq_true, List.mem_map, Bool.and_eq_true,
    beq_iff_eq, Prod.mk.injEq, and_assoc]

/-- Merging a present key rewrites the matched node in place. -/
theorem nodeKeys_mergeNode_mem (st : GraphState) (l k : String) (p : Props)
    (h : (l, k) ∈ nodeKeys st) :
    nodeKeys (mergeNode l k p st) = nodeKeys st := by
  simp only [mergeNode, if_pos ((hasNode_iff st l k).mpr h)]
  simp only [nodeKeys, List.map_map]
  congr 1
  funext n
  by_cases hc : (n.1 == l && n.2.1 == k) = true <;> simp [Function.comp, hc]

/-- Merging an absent key appends a node. -/
theorem nodeKeys_mergeNode_not_mem (st : GraphState) (l k : String) (p : Props)
    (h : (l, k) ∉ nodeKeys st) :
    nodeKeys (mergeNode l k p st) = nodeKeys st ++ [(l, k)] := by
  have hfalse : ¬ hasNode st l k = true := fun hc => h ((hasNode_iff st l k).mp hc)
  simp only [mergeNode, if_neg hfalse]
  simp [nodeKeys]

/-- `mergeNode` is `addKeyK` at the key level. -/
theorem nodeKeys_mergeNode (st : GraphState) (l k : String) (p : Props) :
    nodeKeys (mergeNode l k p st) = addKeyK (nodeKeys st) (l, k) := by
  by_cases h : (l, k) ∈ nodeKeys st
  · rw [nodeKeys_mergeNode_mem st l k p h, addKeyK, if_pos h]
  · rw [nodeKeys_mergeNode_not_mem st l k p h, addKeyK, if_neg h]

theorem nodes_mergeRelEdge (a b c : String) (st : GraphState) :
    (mergeRelEdge a b c st).nodes = st.nodes := by
  unfold mergeRelEdge
  split <;> rfl

theorem nodes_mergeStructRelEdge (a : Nat) (b c : String) (st : GraphState) :
    (mergeStructRelEdge a b c st).nodes = st.nodes := by
  unfold mergeStructRelEdge
  split <;> rfl

theorem nodes_create_reified (eid stype : String) (item : StructureItem)
    (st : GraphState) :
    (create_reified_structure_nodes_only eid stype item st).nodes = st.nodes := by
  unfold create_reified_structure_nodes_only
  split
  · rfl
  · split <;> rfl

/-- A fold of node-preserving steps preserves the nodes. -/
theorem nodes_foldl {β : Type} (f : GraphState → β → GraphState)
    (hf : ∀ s x, (f s x).nodes = s.nodes) :
    ∀ (l : List β) (s : GraphState), (l.foldl f s).nodes = s.nodes := by
  intro l
  induction l with
  | nil => intro s; rfl
  | cons x rest ih => intro s; rw [List.foldl_cons, ih, hf]

theorem nodes_applySpecificRel (eid rt t : String) (st : GraphState) :
    (applySpecificRel eid rt t st).nodes = st.nodes := by
  unfold applySpecificRel
  split
  · split
    · rw [nodes_mergeRelEdge]
    · rfl
  · split
    · split
      · rw [nodes_mergeRelEdge]
      · rfl
    · split
      · split
        · rw [nodes_mergeRelEdge]
        · rfl
      · rfl

theorem nodes_applyStructRel (lab : String) (rid : Option String)
    (typ tlab : String) (topt : Option String) (st : GraphState) :
    (applyStructRel lab rid typ tlab topt st).nodes = st.nodes := by
  cases topt with
  | none => rfl
  | some t =>
      simp only [applyStructRel]
      split
      · split
        · exact nodes_foldl _ (fun s ref => nodes_mergeStructRelEdge ref typ t s) _ st
        · rfl
      · split
        · exact nodes_foldl _ (fun s ref => nodes_mergeStructRelEdge ref typ t s) _ st
        · rfl

theorem nodes_create_reified_relations (stype : String) (item : StructureItem)
    (st : GraphState) :
    (create_reified_structure_relations stype item st).nodes = st.nodes := by
  unfold create_reified_structure_relations
  split
  · rw [nodes_applyStructRel, nodes_applyStructRel]
  · split
    · rw [nodes_applyStructRel]
    · split
      · rw [nodes_applyStructRel]
      · split
        · rw [nodes_applyStructRel, nodes_applyStructRel]
        · split
          · rw [nodes_applyStructRel]
          · rfl

/-- Pass 1 for one entity is `addKeyK` of its `(label, id)` at the key
level. -/
theorem nodeKeys_commitEntityPass1 (st : GraphState) (e : EntityRec) :
    nodeKeys (commitEntityPass1 st e) = entityKeysStep (nodeKeys st) e := by
  unfold commitEntityPass1 entityKeysStep
  have h4 : ∀ (grps : List (String × List StructureItem)) (s : GraphState),
      (grps.foldl (fun s grp => grp.2.foldl
        (fun s2 item => create_reified_structure_nodes_only e.id grp.1 item s2) s) s).nodes
        = s.nodes := by
    intro grps
    exact nodes_foldl _ (fun (s : GraphState) (grp : String × List StructureItem) =>
      nodes_foldl _ (fun s2 item => nodes_create_reified e.id grp.1 item s2) grp.2 s) grps
  have h3 : ∀ (refs : List String) (s : GraphState),
      (refs.foldl (fun s r =>
        if hasNodeAnyLabel s e.id && hasNodeAnyLabel s r then
          mergeRelEdge e.id "REFERENCES" r s
        else s) s).nodes = s.nodes := by
    intro refs
    refine nodes_foldl _ (fun s r => ?_) refs
    split
    · rw [nodes_mergeRelEdge]
    · rfl
  have h2 : ∀ (rels : List (String × List String)) (s : GraphState),
      (rels.foldl (fun s rt => rt.2.foldl
        (fun s2 t => applySpecificRel e.id rt.1 t s2) s) s).nodes = s.nodes := by
    intro rels
    exact nodes_foldl _ (fun (s : GraphState) (rt : String × List String) =>
      nodes_foldl _ (fun s2 t => nodes_applySpecificRel e.id rt.1 t s2) rt.2 s) rels
  show nodeKeys _ = addKeyK (nodeKeys st) (e.label, e.id)
  rw [← nodeKeys_mergeNode st e.label e.id e.properties]
  simp only [nodeKeys]
  rw [h4, h3, h2]

theorem nodes_commitEntityPass2 (st : GraphState) (e : EntityRec) :
    (commitEntityPass2 st e).nodes = st.nodes := by
  unfold commitEntityPass2
  exact nodes_foldl _ (fun (s : GraphState) (grp : String × List StructureItem) =>
    nodes_foldl _ (fun s2 item => nodes_create_reified_relations grp.1 item s2) grp.2 s) _ st

/-- A fold of per-record commits tracks its key transformer. -/
theorem nodeKeys_foldl {β : Type} (f : GraphState → β → GraphState)
    (fk : List (String × String) → β → List (String × String))
    (hf : ∀ s x, nodeKeys (f s x) = fk (nodeKeys s) x) :
    ∀ (l : List β) (s : GraphState),
      nodeKeys (l.foldl f s) = l.foldl fk (nodeKeys s) := by
  intro l
  induction l with
  | nil => intro s; rfl
  | cons x rest ih => intro s; rw [List.foldl_cons, ih, hf, List.foldl_cons]

end Neo4jClient

namespace Neo4jClient

theorem nodes_victimEdge (k : String) (o : Option String) (st : GraphState) :
    (victimEdge k o st).nodes = st.nodes := by
  cases o with
  | none => rfl
  | some v =>
      simp only [victimEdge]
      split
      · rw [nodes_mergeRelEdge]
      · rfl

theorem nodes_agentEdge (k : String) (o : Option String) (st : GraphState) :
    (agentEdge k o st).nodes = st.nodes := by
  cases o with
  | none => rfl
  | some a =>
      simp only [agentEdge]
      split
      · split
        · rw [nodes_mergeRelEdge]
        · rfl
      · rfl

theorem nodes_placeEdge (k : String) (o : Option String) (st : GraphState) :
    (placeEdge k o st).nodes = st.nodes := by
  cases o with
  | none => rfl
  | some p =>
      simp only [placeEdge]
      split
      · rw [nodes_mergeRelEdge]
      · rfl

theorem nodes_performedEdge (k : String) (o : Option String) (st : GraphState) :
    (performedEdge k o st).nodes = st.nodes := by
  cases o with
  | none => rfl
  | some a =>
      simp only [performedEdge]
      split
      · rw [nodes_mergeRelEdge]
      · rfl

theorem nodes_receivedEdge (k : String) (o : Option String) (st : GraphState) :
    (receivedEdge k o st).nodes = st.nodes := by
  cases o with
  | none => rfl
  | some r =>
      simp only [receivedEdge]
      split
      · rw [nodes_mergeRelEdge]
      · rfl

theorem nodes_concernsEdge (k : String) (o : Option String) (st : GraphState) :
    (concernsEdge k o st).nodes = st.nodes := by
  cases o with
  | none => rfl
  | some ab =>
      simp only [concernsEdge]
      split
      · rw [nodes_mergeRelEdge]
      · rfl

theorem nodes_refsEdges (lab key : String) (refs : List String) (st : GraphState) :
    (refsEdges lab key refs st).nodes = st.nodes := by
  unfold refsEdges
  refine nodes_foldl _ (fun s r => ?_) refs st
  split
  · rw [nodes_mergeRelEdge]
  · rfl

theorem nodeKeys_commitDoc (st : GraphState) (d : DocRec) :
    nodeKeys (commitDoc st d) = docKeysStep (nodeKeys st) d := by
  simp only [commitDoc, docKeysStep]
  have h : ∀ (refs : List String) (s : GraphState),
      (refs.foldl (fun s r =>
        if hasNode s "ArchiveDocument" d.id && hasNodeAnyLabel s r then
          mergeRelEdge d.id "REFERENCES" r s
        else s) s).nodes = s.nodes := by
    intro refs
    refine nodes_foldl _ (fun s r => ?_) refs
    split
    · rw [nodes_mergeRelEdge]
    · rfl
  rw [← nodeKeys_mergeNode st "ArchiveDocument" d.id d.properties]
  simp only [nodeKeys]
  rw [h]

theorem nodeKeys_commitAssertion (lab key : String) (a : AssertionRec)
    (st : GraphState) :
    nodeKeys (commitAssertion lab key a st)
      = assertKeysStep (lab, key) a (nodeKeys st) := by
  unfold commitAssertion assertKeysStep
  by_cases hc : (hasNode st lab key && hasNode st "ArchiveDocument" a.doc_id) = true
  · have hmem : (lab, key) ∈ nodeKeys st ∧ ("ArchiveDocument", a.doc_id) ∈ nodeKeys st := by
      rw [Bool.and_eq_true] at hc
      exact ⟨(hasNode_iff st lab key).mp hc.1,
        (hasNode_iff st "ArchiveDocument" a.doc_id).mp hc.2⟩
    rw [if_pos hc, if_pos hmem]
    rw [← nodeKeys_mergeNode st "Assertion" a.assertion_id a.properties]
    simp only [nodeKeys, nodes_mergeRelEdge]
  · have hnmem : ¬((lab, key) ∈ nodeKeys st ∧ ("ArchiveDocument", a.doc_id) ∈ nodeKeys st) := by
      rintro ⟨h1, h2⟩
      exact hc (by
        rw [Bool.and_eq_true]
        exact ⟨(hasNode_iff st lab key).mpr h1,
          (hasNode_iff st "ArchiveDocument" a.doc_id).mpr h2⟩)
    rw [if_neg hc, if_neg hnmem]

theorem nodeKeys_commitEvent (st : GraphState) (ev : EventRec) :
    nodeKeys (commitEvent st ev) = eventKeysStep (nodeKeys st) ev := by
  simp only [commitEvent, eventKeysStep]
  have hnodes :
      (refsEdges "Event" ev.event_id ev.references
        (placeEdge ev.event_id (propTruthy (withCommittedDates ev.properties) "place_id")
          (agentEdge ev.event_id (propTruthy (withCommittedDates ev.properties) "agent_id")
            (victimEdge ev.event_id (propTruthy (withCommittedDates ev.properties) "victim_id")
              (commitAssertion "Event" ev.event_id ev.assertion
                (mergeNode "Event" ev.event_id (withCommittedDates ev.properties) st)))))).nodes
      = (commitAssertion "Event" ev.event_id ev.assertion
          (mergeNode "Event" ev.event_id (withCommittedDates ev.properties) st)).nodes := by
    rw [nodes_refsEdges, nodes_placeEdge, nodes_agentEdge, nodes_victimEdge]
  show nodeKeys _ = _
  rw [nodeKeys]
  rw [hnodes]
  have : (commitAssertion "Event" ev.event_id ev.assertion
      (mergeNode "Event" ev.event_id (withCommittedDates ev.properties) st)).nodes.map
        (fun n => (n.1, n.2.1))
      = nodeKeys (commitAssertion "Event" ev.event_id ev.assertion
          (mergeNode "Event" ev.event_id (withCommittedDates ev.properties) st)) := rfl
  rw [this, nodeKeys_commitAssertion, nodeKeys_mergeNode]

theorem nodeKeys_commitMicro (st : GraphState) (m : MicroRec) :
    nodeKeys (commitMicro st m) = microKeysStep (nodeKeys st) m := by
  simp only [commitMicro, microKeysStep]
  have hnodes :
      (refsEdges "MicroAction" m.micro_id m.references
        (concernsEdge m.micro_id (propTruthy (withCommittedDates m.properties) "about_id")
          (receivedEdge m.micro_id (propTruthy (withCommittedDates m.properties) "recipient_id")
            (performedEdge m.micro_id (propTruthy (withCommittedDates m.properties) "actor_id")
              (commitAssertion "MicroAction" m.micro_id m.assertion
                (mergeNode "MicroAction" m.micro_id (withCommittedDates m.properties) st)))))).nodes
      = (commitAssertion "MicroAction" m.micro_id m.assertion
          (mergeNode "MicroAction" m.micro_id (withCommittedDates m.properties) st)).nodes := by
    rw [nodes_refsEdges, nodes_concernsEdge, nodes_receivedEdge, nodes_performedEdge]
  show nodeKeys _ = _
  rw [nodeKeys]
  rw [hnodes]
  have : (commitAssertion "MicroAction" m.micro_id m.assertion
      (mergeNode "MicroAction" m.micro_id (withCommittedDates m.properties) st)).nodes.map
        (fun n => (n.1, n.2.1))
      = nodeKeys (commitAssertion "MicroAction" m.micro_id m.assertion
          (mergeNode "MicroAction" m.micro_id (withCommittedDates m.properties) st)) := rfl
  rw [this, nodeKeys_commitAssertion, nodeKeys_mergeNode]

/-- The key-level characterization of committing all four batches. -/
theorem nodeKeys_commitAll (b : Batches) (st : GraphState) :
    nodeKeys (commitAll b st) = commitAllKeys b (nodeKeys st) := by
  simp only [commitAll, commitAllKeys, import_entities, import_documents,
    import_events, import_microactions]
  rw [nodeKeys_foldl commitMicro microKeysStep nodeKeys_commitMicro]
  rw [nodeKeys_foldl commitEvent eventKeysStep nodeKeys_commitEvent]
  rw [nodeKeys_foldl commitDoc docKeysStep nodeKeys_commitDoc]
  have hp2 : nodeKeys ((sortEntities b.entities).foldl commitEntityPass2
      ((sortEntities b.entities).foldl commitEntityPass1 st))
      = nodeKeys ((sortEntities b.entities).foldl commitEntityPass1 st) := by
    simp only [nodeKeys]
    rw [nodes_foldl commitEntityPass2 nodes_commitEntityPass2]
  rw [hp2, nodeKeys_foldl commitEntityPass1 entityKeysStep nodeKeys_commitEntityPass1]

end Neo4jClient

namespace Neo4jClient

theorem mem_addKeyK_iff (K : List (String × String)) (k x : String × String) :
    x ∈ addKeyK K k ↔ x ∈ K ∨ x = k := by
  by_cases h : k ∈ K
  · simp only [addKeyK, if_pos h]
    constructor
    · exact Or.inl
    · rintro (hx | rfl)
      · exact hx
      · exact h
  · simp [addKeyK, if_neg h, List.mem_append]

theorem mem_addKeyK_of_mem (K : List (String × String)) (k x : String × String)
    (h : x ∈ K) : x ∈ addKeyK K k :=
  (mem_addKeyK_iff K k x).mpr (Or.inl h)

theorem mem_addKeyK_self (K : List (String × String)) (k : String × String) :
    k ∈ addKeyK K k :=
  (mem_addKeyK_iff K k k).mpr (Or.inr rfl)

theorem addKeyK_of_mem (K : List (String × String)) (k : String × String)
    (h : k ∈ K) : addKeyK K k = K := if_pos h

/-- The common shape of `eventKeysStep` and `microKeysStep`. -/
theorem stepShape_of_mem (mk : String × String) (a : AssertionRec)
    (K : List (String × String)) (x : String × String) (hx : x ∈ K) :
    x ∈ assertKeysStep mk a (addKeyK K mk) := by
  unfold assertKeysStep
  split
  · exact mem_addKeyK_of_mem _ _ _ (mem_addKeyK_of_mem _ _ _ hx)
  · exact mem_addKeyK_of_mem _ _ _ hx

theorem stepShape_main (mk : String × String) (a : AssertionRec)
    (K : List (String × String)) :
    mk ∈ assertKeysStep mk a (addKeyK K mk) := by
  unfold assertKeysStep
  split
  · exact mem_addKeyK_of_mem _ _ _ (mem_addKeyK_self _ _)
  · exact mem_addKeyK_self _ _

theorem stepShape_elim (mk : String × String) (a : AssertionRec)
    (K : List (String × String)) (x : String × String)
    (hx : x ∈ assertKeysStep mk a (addKeyK K mk)) :
    x ∈ K ∨ x = mk ∨ x = ("Assertion", a.assertion_id) := by
  unfold assertKeysStep at hx
  by_cases hcond : mk ∈ addKeyK K mk ∧ ("ArchiveDocument", a.doc_id) ∈ addKeyK K mk
  · rw [if_pos hcond] at hx
    rcases (mem_addKeyK_iff _ _ _).mp hx with h1 | h2
    · rcases (mem_addKeyK_iff _ _ _).mp h1 with h3 | h4
      · exact Or.inl h3
      · exact Or.inr (Or.inl h4)
    · exact Or.inr (Or.inr h2)
  · rw [if_neg hcond] at hx
    rcases (mem_addKeyK_iff _ _ _).mp hx with h3 | h4
    · exact Or.inl h3
    · exact Or.inr (Or.inl h4)

theorem stepShape_assert (mk : String × String) (a : AssertionRec)
    (K : List (String × String))
    (hd : ("ArchiveDocument", a.doc_id) ∈ K) :
    ("Assertion", a.assertion_id) ∈ assertKeysStep mk a (addKeyK K mk) := by
  unfold assertKeysStep
  rw [if_pos ⟨mem_addKeyK_self _ _, mem_addKeyK_of_mem _ _ _ hd⟩]
  exact mem_addKeyK_self _ _

theorem stepShape_noop (mk : String × String) (a : AssertionRec)
    (K : List (String × String)) (hm : mk ∈ K)
    (ha : ("ArchiveDocument", a.doc_id) ∈ K → ("Assertion", a.assertion_id) ∈ K) :
    assertKeysStep mk a (addKeyK K mk) = K := by
  unfold assertKeysStep
  rw [addKeyK_of_mem _ _ hm]
  by_cases hd : ("ArchiveDocument", a.doc_id) ∈ K
  · rw [if_pos ⟨hm, hd⟩, addKeyK_of_mem _ _ (ha hd)]
  · rw [if_neg (fun hc => hd hc.2)]

/-- Generic fold monotonicity over key transformers. -/
theorem foldl_keys_mono {ρ : Type} (f : List (String × String) → ρ → List (String × String))
    (hf : ∀ K r x, x ∈ K → x ∈ f K r) :
    ∀ (l : List ρ) (K : List (String × String)) (x : String × String),
      x ∈ K → x ∈ l.foldl f K := by
  intro l
  induction l with
  | nil => intro K x hx; exact hx
  | cons r rest ih => intro K x hx; exact ih (f K r) x (hf K r x hx)

/-- Every record's own key is present after its phase. -/
theorem foldl_keys_main {ρ : Type} (f : List (String × String) → ρ → List (String × String))
    (key : ρ → String × String)
    (hmain : ∀ K r, key r ∈ f K r)
    (hf : ∀ K r x, x ∈ K → x ∈ f K r) :
    ∀ (l : List ρ) (K : List (String × String)) (r : ρ), r ∈ l → key r ∈ l.foldl f K := by
  intro l
  induction l with
  | nil => intro K r hr; exact absurd hr (List.not_mem_nil _)
  | cons r0 rest ih =>
      intro K r hr
      rcases List.mem_cons.mp hr with rfl | hr'
      · exact foldl_keys_mono f hf rest (f K r) (key r) (hmain K r)
      · exact ih (f K r0) r hr'

/-- A phase whose every step is a no-op under a per-record condition is a
no-op. -/
theorem foldl_keys_noop {ρ : Type} (f : List (String × String) → ρ → List (String × String))
    (P : ρ → List (String × String) → Prop)
    (hstep : ∀ K r, P r K → f K r = K) :
    ∀ (l : List ρ) (K : List (String × String)), (∀ r ∈ l, P r K) → l.foldl f K = K := by
  intro l
  induction l with
  | nil => intro K _; rfl
  | cons r0 rest ih =>
      intro K h
      rw [List.foldl_cons, hstep K r0 (h r0 (by simp))]
      exact ih K (fun r hr => h r (by simp [hr]))

/-- Membership of a fixed key is unchanged by a phase that never adds it. -/
theorem foldl_keys_stable {ρ : Type} (f : List (String × String) → ρ → List (String × String))
    (x : String × String)
    (hstab : ∀ K r, x ∈ f K r ↔ x ∈ K) :
    ∀ (l : List ρ) (K : List (String × String)), x ∈ l.foldl f K ↔ x ∈ K := by
  intro l
  induction l with
  | nil => intro K; exact Iff.rfl
  | cons r0 rest ih => intro K; rw [List.foldl_cons, ih, hstab]

/-- In an assertion-writing phase, a record whose owning document key is
present ends with its assertion key present. -/
theorem foldl_keys_assert {ρ : Type} (f : List (String × String) → ρ → List (String × String))
    (dKey aKey : ρ → String × String)
    (hassert : ∀ K r, dKey r ∈ K → aKey r ∈ f K r)
    (hf : ∀ K r x, x ∈ K → x ∈ f K r) :
    ∀ (l : List ρ) (K : List (String × String)) (r : ρ),
      r ∈ l → dKey r ∈ K → aKey r ∈ l.foldl f K := by
  intro l
  induction l with
  | nil => intro K r hr; exact absurd hr (List.not_mem_nil _)
  | cons r0 rest ih =>
      intro K r hr hd
      rcases List.mem_cons.mp hr with rfl | hr'
      · exact foldl_keys_mono f hf rest (f K r) (aKey r) (hassert K r hd)
      · exact ih (f K r0) r hr' (hf K r0 (dKey r) hd)

end Neo4jClient

namespace Neo4jClient

theorem eventStep_mono (K : List (String × String)) (ev : EventRec)
    (x : String × String) (hx : x ∈ K) : x ∈ eventKeysStep K ev :=
  stepShape_of_mem _ _ _ _ hx

theorem eventStep_main (K : List (String × String)) (ev : EventRec) :
    ("Event", ev.event_id) ∈ eventKeysStep K ev :=
  stepShape_main _ _ _

theorem eventStep_assert (K : List (String × String)) (ev : EventRec)
    (hd : ("ArchiveDocument", ev.assertion.doc_id) ∈ K) :
    ("Assertion", ev.assertion.assertion_id) ∈ eventKeysStep K ev :=
  stepShape_assert _ _ _ hd

theorem eventStep_noop (K : List (String × String)) (ev : EventRec)
    (hm : ("Event", ev.event_id) ∈ K)
    (ha : ("ArchiveDocument", ev.assertion.doc_id) ∈ K →
      ("Assertion", ev.assertion.assertion_id) ∈ K) :
    eventKeysStep K ev = K :=
  stepShape_noop _ _ _ hm ha

theorem eventStep_stable (x : String × String) (hlab : x.1 = "ArchiveDocument")
    (K : List (String × String)) (ev : EventRec) :
    x ∈ eventKeysStep K ev ↔ x ∈ K := by
  constructor
  · intro hx
    rcases stepShape_elim _ _ _ _ hx with h | h | h
    · exact h
    · rw [h] at hlab
      have hlab' : ("Event" : String) = "ArchiveDocument" := hlab
      exact absurd hlab' (by decide)
    · rw [h] at hlab
      have hlab' : ("Assertion" : String) = "ArchiveDocument" := hlab
      exact absurd hlab' (by decide)
  · exact eventStep_mono K ev x

theorem microStep_mono (K : List (String × String)) (m : MicroRec)
    (x : String × String) (hx : x ∈ K) : x ∈ microKeysStep K m :=
  stepShape_of_mem _ _ _ _ hx

theorem microStep_main (K : List (String × String)) (m : MicroRec) :
    ("MicroAction", m.micro_id) ∈ microKeysStep K m :=
  stepShape_main _ _ _

theorem microStep_assert (K : List (String × String)) (m : MicroRec)
    (hd : ("ArchiveDocument", m.assertion.doc_id) ∈ K) :
    ("Assertion", m.assertion.assertion_id) ∈ microKeysStep K m :=
  stepShape_assert _ _ _ hd

theorem microStep_noop (K : List (String × String)) (m : MicroRec)
    (hm : ("MicroAction", m.micro_id) ∈ K)
    (ha : ("ArchiveDocument", m.assertion.doc_id) ∈ K →
      ("Assertion", m.assertion.assertion_id) ∈ K) :
    microKeysStep K m = K :=
  stepShape_noop _ _ _ hm ha

theorem microStep_stable (x : String × String) (hlab : x.1 = "ArchiveDocument")
    (K : List (String × String)) (m : MicroRec) :
    x ∈ microKeysStep K m ↔ x ∈ K := by
  constructor
  · intro hx
    rcases stepShape_elim _ _ _ _ hx with h | h | h
    · exact h
    · rw [h] at hlab
      have hlab' : ("MicroAction" : String) = "ArchiveDocument" := hlab
      exact absurd hlab' (by decide)
    · rw [h] at hlab
      have hlab' : ("Assertion" : String) = "ArchiveDocument" := hlab
      exact absurd hlab' (by decide)
  · exact microStep_mono K m x

/-- Replaying the key transformer of the whole commit is a no-op. -/
theorem commitAllKeys_idem (b : Batches) (K : List (String × String)) :
    commitAllKeys b (commitAllKeys b K) = commitAllKeys b K := by
  unfold commitAllKeys
  set K1 := (sortEntities b.entities).foldl entityKeysStep K with hK1
  set K2 := b.documents.foldl docKeysStep K1 with hK2
  set K3 := b.events.foldl eventKeysStep K2 with hK3
  set K4 := b.microactions.foldl microKeysStep K3 with hK4
  have hent_mono : ∀ (Ka : List (String × String)) (e : EntityRec) (x : String × String),
      x ∈ Ka → x ∈ entityKeysStep Ka e :=
    fun Ka e x hx => mem_addKeyK_of_mem _ _ _ hx
  have hdoc_mono : ∀ (Ka : List (String × String)) (d : DocRec) (x : String × String),
      x ∈ Ka → x ∈ docKeysStep Ka d :=
    fun Ka d x hx => mem_addKeyK_of_mem _ _ _ hx
  have h12 : ∀ x, x ∈ K1 → x ∈ K2 :=
    fun x hx => foldl_keys_mono docKeysStep hdoc_mono b.documents K1 x hx
  have h23 : ∀ x, x ∈ K2 → x ∈ K3 :=
    fun x hx => foldl_keys_mono eventKeysStep eventStep_mono b.events K2 x hx
  have h34 : ∀ x, x ∈ K3 → x ∈ K4 :=
    fun x hx => foldl_keys_mono microKeysStep microStep_mono b.microactions K3 x hx
  have h14 : ∀ x, x ∈ K1 → x ∈ K4 := fun x hx => h34 x (h23 x (h12 x hx))
  have h24 : ∀ x, x ∈ K2 → x ∈ K4 := fun x hx => h34 x (h23 x hx)
  have hstep1 : (sortEntities b.entities).foldl entityKeysStep K4 = K4 := by
    refine foldl_keys_noop entityKeysStep (fun e Ka => (e.label, e.id) ∈ Ka)
      (fun Ka e h => addKeyK_of_mem _ _ h) _ K4 (fun e he => ?_)
    exact h14 _ (foldl_keys_main entityKeysStep (fun e => (e.label, e.id))
      (fun Ka e => mem_addKeyK_self _ _) hent_mono _ K e he)
  have hstep2 : b.documents.foldl docKeysStep K4 = K4 := by
    refine foldl_keys_noop docKeysStep (fun d Ka => ("ArchiveDocument", d.id) ∈ Ka)
      (fun Ka d h => addKeyK_of_mem _ _ h) _ K4 (fun d hd => ?_)
    exact h24 _ (foldl_keys_main docKeysStep (fun d => ("ArchiveDocument", d.id))
      (fun Ka d => mem_addKeyK_self _ _) hdoc_mono _ K1 d hd)
  have hstep3 : b.events.foldl eventKeysStep K4 = K4 := by
    refine foldl_keys_noop eventKeysStep
      (fun ev Ka => ("Event", ev.event_id) ∈ Ka ∧
        (("ArchiveDocument", ev.assertion.doc_id) ∈ Ka →
          ("Assertion", ev.assertion.assertion_id) ∈ Ka))
      (fun Ka ev h => eventStep_noop Ka ev h.1 h.2) _ K4 (fun ev hev => ?_)
    constructor
    · exact h34 _ (foldl_keys_main eventKeysStep (fun ev => ("Event", ev.event_id))
        eventStep_main eventStep_mono _ K2 ev hev)
    · intro hd
      have hd3 : ("ArchiveDocument", ev.assertion.doc_id) ∈ K3 :=
        (foldl_keys_stable microKeysStep _ (microStep_stable _ rfl) b.microactions K3).mp hd
      have hd2 : ("ArchiveDocument", ev.assertion.doc_id) ∈ K2 :=
        (foldl_keys_stable eventKeysStep _ (eventStep_stable _ rfl) b.events K2).mp hd3
      have hak : ("Assertion", ev.assertion.assertion_id) ∈ K3 :=
        foldl_keys_assert eventKeysStep
          (fun ev => ("ArchiveDocument", ev.assertion.doc_id))
          (fun ev => ("Assertion", ev.assertion.assertion_id))
          (fun Ka ev' hd' => eventStep_assert Ka ev' hd') eventStep_mono
          b.events K2 ev hev hd2
      exact h34 _ hak
  have hstep4 : b.microactions.foldl microKeysStep K4 = K4 := by
    refine foldl_keys_noop microKeysStep
      (fun m Ka => ("MicroAction", m.micro_id) ∈ Ka ∧
        (("ArchiveDocument", m.assertion.doc_id) ∈ Ka →
          ("Assertion", m.assertion.assertion_id) ∈ Ka))
      (fun Ka m h => microStep_noop Ka m h.1 h.2) _ K4 (fun m hm => ?_)
    constructor
    · exact foldl_keys_main microKeysStep (fun m => ("MicroAction", m.micro_id))
        microStep_main microStep_mono _ K3 m hm
    · intro hd
      have hd3 : ("ArchiveDocument", m.assertion.doc_id) ∈ K3 :=
        (foldl_keys_stable microKeysStep _ (microStep_stable _ rfl) b.microactions K3).mp hd
      exact foldl_keys_assert microKeysStep
        (fun m => ("ArchiveDocument", m.assertion.doc_id))
        (fun m => ("Assertion", m.assertion.assertion_id))
        (fun Ka m' hd' => microStep_assert Ka m' hd') microStep_mono
        b.microactions K3 m hm hd3
  rw [hstep1, hstep2, hstep3, hstep4]

end Neo4jClient

/-- C1 counterexample: committing the same entity batch twice does not yield
the same graph state as committing it once.  Reified-structure nodes are
written with `CREATE` (never merged by `rid`), so the second commit
duplicates the example entity's `Occupation` node and its ownership edge. -/
theorem reified_structure_nodes_duplicated :
    Neo4jClient.commitAll Neo4jClient.exampleBatches
        (Neo4jClient.commitAll Neo4jClient.exampleBatches Neo4jClient.emptyGraph)
      ≠ Neo4jClient.commitAll Neo4jClient.exampleBatches Neo4jClient.emptyGraph
  ∧ (Neo4jClient.commitAll Neo4jClient.exampleBatches
      (Neo4jClient.commitAll Neo4jClient.exampleBatches
        Neo4jClient.emptyGraph)).structNodes.length = 2
  ∧ (Neo4jClient.commitAll Neo4jClient.exampleBatches
      Neo4jClient.emptyGraph).structNodes.length = 1
  ∧ (Neo4jClient.commitAll Neo4jClient.exampleBatches
      (Neo4jClient.commitAll Neo4jClient.exampleBatches
        Neo4jClient.emptyGraph)).ownEdges.length = 2
  ∧ (Neo4jClient.commitAll Neo4jClient.exampleBatches
      Neo4jClient.emptyGraph).ownEdges.length = 1 := by
  refine ⟨?_, ?_, ?_, ?_, ?_⟩ <;> decide

/-- C1 amended: re-running the full pipeline on unchanged input reproduces
the same graph state because the pipeline clears the database before
importing; the id-keyed node writes (entities, documents, events,
micro-actions, assertions) are merges by id, so committing the four batches
twice creates no additional id-keyed node — but reified-structure nodes are
`CREATE`d unconditionally rather than merged by `rid`, so a double commit
without clearing duplicates them (see the counterexample). -/
theorem projector_node_merges_and_pipeline_idempotent
    (b : Neo4jClient.Batches) (s : Neo4jClient.GraphState) :
    Neo4jClient.runPipeline b (Neo4jClient.runPipeline b s)
      = Neo4jClient.runPipeline b s
  ∧ (Neo4jClient.commitAll b (Neo4jClient.commitAll b s)).nodes.length
      = (Neo4jClient.commitAll b s).nodes.length := by
  constructor
  · rfl
  · rw [Neo4jClient.nodes_length_eq_keys, Neo4jClient.nodes_length_eq_keys,
      Neo4jClient.nodeKeys_commitAll, Neo4jClient.nodeKeys_commitAll,
      Neo4jClient.commitAllKeys_idem]
